import Mathlib

/-!
Verification of the swan-dist server against its specification.

Each Rust module is given a shallow embedding: pure functions become Lean
functions on `Nat`/`Int`/`List`, machine-integer overflow is made explicit with
`% 2^w` where it can occur, stateful code is modelled by explicit state passing,
and panics/failures are modelled with `Option`.

Contents:
* connection / stage machine / one-time-code auth (src/server/connection.rs,
  src/server/handler.rs, src/server/packets/stage.rs, src/main.rs, src/models.rs)
* varint codec (src/server/utils.rs)
* NBT codec (src/nbt.rs)
* region reader/writer (src/region.rs)
* packed block-index codec (src/chunk.rs)
-/

set_option maxHeartbeats 1000000

/-! ### Protocol stages — src/server/packets/stage.rs -/

/-- `Stage` from src/server/packets/stage.rs lines 1-10. -/
inductive Stage
  | Handshake
  | Status
  | Login
  | Config
  | Play
  | Transfer
  | Invalid
deriving DecidableEq, Repr

/-- `Stage::from_id` — src/server/packets/stage.rs lines 13-20. -/
def Stage.fromId (id : Int) : Stage :=
  match id with
  | 1 => Stage.Status
  | 2 => Stage.Login
  | 3 => Stage.Transfer
  | _ => Stage.Invalid

/-! ### Protocol version

Modelled from the spec: `src/server/version.rs` is referenced by the sources
(`crate::server::version::ProtocolVersion`) but is not part of the provided
tree.  Per spec section 3, `ProtocolVersion` is an enumeration of wire versions
totally ordered by numeric id with a sentinel `Unknown`, fixed by the first
handshake packet (`ProtocolVersion::from_id` of the handshake varint).  Spec
section 8 scenario 1 fixes the current version's (1.21's) numeric id as 767.
Only the identity of 1.21 and inequality with other versions matter for the
claims, so versions are modelled by their numeric id, with `Unknown` as a
value distinct from every wire id (wire ids are non-negative). -/

/-- Modelled from the spec: numeric protocol-version id; `Unknown` is `-1`. -/
def ProtocolVersion.unknown : Int := -1

/-- Modelled from the spec: id of version 1.21 (spec section 8, scenario 1). -/
def ProtocolVersion.v1_21 : Int := 767

/-- Modelled from the spec: `ProtocolVersion::from_id` keyed by numeric id. -/
def ProtocolVersion.fromId (id : Int) : Int := id

/-- Modelled from the spec: `ProtocolVersion::get_name` of 1.21 is "1.21". -/
def ProtocolVersion.name_1_21 : String := "1.21"

/-! ### Text components — src/server/text.rs

Only the fields the auth/kick paths touch are carried (`type` is always
"text" and the remaining fields stay `None` in every component these paths
build, so they are omitted from the record). -/

/-- `ChatColor` — src/server/text.rs. -/
inductive ChatColor
  | Black | DarkBlue | DarkGreen | DarkCyan | DarkRed | Purple | Gold | Gray
  | DarkGray | Blue | Green | Aqua | Red | LightPurple | Yellow | White
  | Custom (hex : String)
deriving DecidableEq, Repr

/-- `ChatColor::get_name` — src/server/text.rs. -/
def ChatColor.getName : ChatColor → String
  | ChatColor.Black => "black"
  | ChatColor.DarkBlue => "dark_blue"
  | ChatColor.DarkGreen => "dark_green"
  | ChatColor.DarkCyan => "dark_aqua"
  | ChatColor.DarkRed => "dark_red"
  | ChatColor.Purple => "dark_purple"
  | ChatColor.Gold => "gold"
  | ChatColor.Gray => "gray"
  | ChatColor.DarkGray => "dark_gray"
  | ChatColor.Blue => "blue"
  | ChatColor.Green => "green"
  | ChatColor.Aqua => "aqua"
  | ChatColor.Red => "red"
  | ChatColor.LightPurple => "light_purple"
  | ChatColor.Yellow => "yellow"
  | ChatColor.White => "white"
  | ChatColor.Custom hex => "#" ++ hex

/-- `TextComponent` — src/server/text.rs (fields used by the auth paths). -/
structure TextComponent where
  extra : Option (List TextComponent)
  text : Option String
  color : Option String
  bold : Option Bool

/-- `TextComponent::new` — all fields `None`. -/
def TextComponent.new : TextComponent :=
  { extra := none, text := none, color := none, bold := none }

/-- `TextComponent::set_text`. -/
def TextComponent.setText (c : TextComponent) (t : String) : TextComponent :=
  { c with text := some t }

/-- `TextComponent::plain`. -/
def TextComponent.plain (t : String) : TextComponent :=
  TextComponent.new.setText t

/-- `TextComponent::set_bold`. -/
def TextComponent.setBold (c : TextComponent) (b : Bool) : TextComponent :=
  { c with bold := some b }

/-- `TextComponent::set_color` (stores the color's name). -/
def TextComponent.setColor (c : TextComponent) (col : ChatColor) : TextComponent :=
  { c with color := some col.getName }

/-- `TextComponent::add_component` — appends a sibling to `extra`. -/
def TextComponent.addComponent (c : TextComponent) (sib : TextComponent) : TextComponent :=
  { c with extra := some ((c.extra.getD []) ++ [sib]) }

/-! ### Profiles and the one-time-code manager — src/server/common.rs, src/models.rs -/

/-- `Profile` — src/server/common.rs (UUID as its 128-bit value). -/
structure Profile where
  id : Nat
  name : String
  properties : List (String × String × Option String)
deriving DecidableEq, Repr

/-- `OneTimeCode` — src/models.rs lines 47-51.  The channel sender half is
modelled at the event level (see `OutEvent.channelSend`); only the `used` flag
is state. -/
structure OneTimeCode where
  used : Bool
deriving DecidableEq, Repr

/-- `OneTimeCode::new` — src/models.rs lines 54-59. -/
def OneTimeCode.new : OneTimeCode := { used := false }

/-- `AuthManager` — src/models.rs lines 72-75.  The `HashMap<String,
OneTimeCode>` is modelled as an association list with (invariantly) unique
keys. -/
structure AuthManager where
  oneTimeCodes : List (String × OneTimeCode)
deriving DecidableEq, Repr

/-- `HashMap::get` on the association-list model of the code map. -/
def lookupCode : List (String × OneTimeCode) → String → Option OneTimeCode
  | [], _ => none
  | (k, v) :: t, c => if k = c then some v else lookupCode t c

/-- `AuthManager::has_code` — src/models.rs lines 90-92. -/
def AuthManager.hasCode (m : AuthManager) (code : String) : Bool :=
  (lookupCode m.oneTimeCodes code).isSome

/-- `AuthManager::is_code_used` — src/models.rs lines 94-96. -/
def AuthManager.isCodeUsed (m : AuthManager) (code : String) : Bool :=
  m.hasCode code && ((lookupCode m.oneTimeCodes code).getD OneTimeCode.new).used

/-- `AuthManager::use_code` — src/models.rs lines 98-101: sets the `used`
flag of the entry when present; silent no-op on an unknown code. -/
def AuthManager.useCode (m : AuthManager) (code : String) : AuthManager :=
  { oneTimeCodes :=
      m.oneTimeCodes.map (fun p => if p.1 = code then (p.1, { used := true }) else p) }

/-- `AuthManager::get_sender` — src/models.rs lines 107-109: `some` exactly
when the code is present (the sender itself is modelled at the event level). -/
def AuthManager.getSender (m : AuthManager) (code : String) : Option OneTimeCode :=
  lookupCode m.oneTimeCodes code

/-! ### Outbound events and the packet handler — src/server/handler.rs, src/main.rs -/

/-- Server-to-client packets produced by the paths under verification
(src/server/packets/s2c).  Packets whose payload the claims never inspect
carry no fields. -/
inductive OutPacket
  | statusResponse
  | pingResponse (payload : Int)
  | loginHelloS2C
  | loginDisconnect (reason : TextComponent)
  | configDisconnect (reason : TextComponent)
  | playDisconnect (reason : TextComponent)
  | gameMessage (text : TextComponent) (overlay : Bool)

/-- An observable effect of the handler: a packet put on the connection's
outbound queue, or a `Profile` sent over a one-time-code's channel
(`manager.get_sender(code).send(Some(profile))`, src/main.rs line 136). -/
inductive OutEvent
  | packet (p : OutPacket)
  | channelSend (code : String) (profile : Profile)

/-- `PacketHandler::kick` — src/server/handler.rs lines 48-55.  Returns the
`Ok` value of the Rust function together with the packets sent: a disconnect
packet for the `Login`/`Config`/`Play` stages, and `Ok(false)` with no packet
for every other stage. -/
def PacketHandler.kick (stage : Stage) (reason : TextComponent) : Bool × List OutEvent :=
  match stage with
  | Stage.Login => (true, [OutEvent.packet (OutPacket.loginDisconnect reason)])
  | Stage.Config => (true, [OutEvent.packet (OutPacket.configDisconnect reason)])
  | Stage.Play => (true, [OutEvent.packet (OutPacket.playDisconnect reason)])
  | _ => (false, [])

/-- The "This code does not exist!" chat component — src/main.rs lines 113-119. -/
def codeNotExistMsg : TextComponent :=
  (((TextComponent.plain "This code does not exist! ").setBold true).setColor ChatColor.Red).addComponent
    (((TextComponent.plain "Did you enter it correctly?").setBold false).setColor ChatColor.DarkRed)

/-- The "already been used" chat component — src/main.rs lines 122-128. -/
def codeUsedMsg : TextComponent :=
  (((TextComponent.plain "This code has already been used! ").setBold true).setColor ChatColor.Red).addComponent
    (((TextComponent.plain "Please generate a new code and try again.").setBold false).setColor ChatColor.DarkRed)

/-- The "Authorization successful!" kick component — src/main.rs lines 138-144. -/
def authSuccessMsg : TextComponent :=
  (((TextComponent.plain "Authorization successful! ").setBold true).setColor ChatColor.Green).addComponent
    (((TextComponent.plain "You may return to the webmap.").setBold false).setColor ChatColor.Gray)

/-- `AuthPacketHandler::on_chat` — src/main.rs lines 109-148.  Takes the
handler's stage (used by `kick`), the shared manager, the connection's profile
and the chat text; returns the updated manager and the emitted events in
program order (mark used, then the channel send, then the kick). -/
def AuthPacketHandler.onChat (stage : Stage) (m : AuthManager) (profile : Profile)
    (message : String) : AuthManager × List OutEvent :=
  if ¬ m.hasCode message then
    (m, [OutEvent.packet (OutPacket.gameMessage codeNotExistMsg false)])
  else if m.isCodeUsed message then
    (m, [OutEvent.packet (OutPacket.gameMessage codeUsedMsg false)])
  else
    (m.useCode message,
      [OutEvent.channelSend message profile] ++ (PacketHandler.kick stage authSuccessMsg).2)

/-! ### The connection state machine — src/server/connection.rs

`ClientConnection::handle` is a loop that frames, decrypts and decodes one
client packet at a time and dispatches it on the current stage
(src/server/connection.rs lines 265-765).  The embedding works at the decoded
packet level: `InPacket` is the packet decoded for the id the dispatcher
observed.  Byte framing, AES-CFB8 ciphers, the RSA/session-service login
exchange and the configuration-stage bring-up are connection-external I/O and
are not modelled; no claim depends on them.  `closed` records whether the
loop has exited (`break`). -/

/-- Decoded client-to-server packets reaching the stage dispatcher. -/
inductive InPacket
  | handshake (versionId : Int) (address : String) (port : Nat) (nextStageId : Int)
  | statusRequest
  | pingRequest (payload : Int)
  | loginHello (name : String)
  | loginKey
  | enterConfiguration
  | chat (message : String)
  | unknownId (id : Int)
deriving DecidableEq, Repr

/-- Per-connection state (the fields of `ClientConnection` the dispatcher
reads/writes, plus the loop-exit flag). -/
structure ConnState where
  stage : Stage
  version : Int
  username : String
  closed : Bool
deriving DecidableEq, Repr

/-- `ClientConnection::new` — src/server/connection.rs lines 100-113 (version
`Unknown`, username "Offline") with the handler starting in `Handshake`. -/
def ConnState.initial : ConnState :=
  { stage := Stage.Handshake, version := ProtocolVersion.unknown,
    username := "Offline", closed := false }

/-- One dispatcher step — src/server/connection.rs lines 265-765.
Returns the successor connection state, the successor auth-manager state and
the events emitted, in order.  Stage arms:

* `Handshake` (lines 267-282): store the version, switch to the packet's
  next stage (`on_handshake` sends nothing).
* `Status` (lines 284-308): status request → status response; ping → echo.
* `Login` (lines 310-439): on login hello with a version other than 1.21,
  `kick` (one `LoginDisconnect`) and `continue` — the loop neither closes nor
  changes stage; with 1.21, capture the username and send the encryption
  request (the RSA payload is abstracted).  `LoginKeyC2S` starts the
  crypto/session-service exchange, which is external I/O and not modelled.
  `EnterConfigurationC2S` switches to `Config`.
* `Config` (lines 442-736): brand/features/registry bring-up, not modelled
  (no claim concerns it).
* `Play` (lines 738-763): chat is passed to the handler's `on_chat`.
* any other stage (line 764): `_ => println!(...)` — nothing is handled.

Unknown packet ids in a stage fall through `packet_case!` and are silently
ignored. -/
def stepConn (c : ConnState) (m : AuthManager) (profile : Profile) (p : InPacket) :
    ConnState × AuthManager × List OutEvent :=
  if c.closed then (c, m, []) else
  match c.stage, p with
  | Stage.Handshake, InPacket.handshake v _ _ next =>
      ({ c with version := ProtocolVersion.fromId v, stage := Stage.fromId next }, m, [])
  | Stage.Status, InPacket.statusRequest =>
      (c, m, [OutEvent.packet OutPacket.statusResponse])
  | Stage.Status, InPacket.pingRequest payload =>
      (c, m, [OutEvent.packet (OutPacket.pingResponse payload)])
  | Stage.Login, InPacket.loginHello name =>
      if c.version ≠ ProtocolVersion.v1_21 then
        (c, m, (PacketHandler.kick c.stage
          (TextComponent.plain ("Outdated client! Please use " ++ ProtocolVersion.name_1_21))).2)
      else
        ({ c with username := name }, m, [OutEvent.packet OutPacket.loginHelloS2C])
  | Stage.Login, InPacket.loginKey => (c, m, [])
  | Stage.Login, InPacket.enterConfiguration =>
      ({ c with stage := Stage.Config }, m, [])
  | Stage.Config, _ => (c, m, [])
  | Stage.Play, InPacket.chat message =>
      let r := AuthPacketHandler.onChat c.stage m profile message
      (c, r.1, r.2)
  | _, _ => (c, m, [])

/-- Run the dispatcher over a list of inbound packets, concatenating events. -/
def runConn (c : ConnState) (m : AuthManager) (profile : Profile) :
    List InPacket → ConnState × AuthManager × List OutEvent
  | [] => (c, m, [])
  | p :: rest =>
      let r := stepConn c m profile p
      let r2 := runConn r.1 r.2.1 profile rest
      (r2.1, r2.2.1, r.2.2 ++ r2.2.2)

/-! #### Small lemmas about the auth manager -/

theorem lookupCode_cons (a : String × OneTimeCode) (rest : List (String × OneTimeCode))
    (c : String) :
    lookupCode (a :: rest) c = if a.1 = c then some a.2 else lookupCode rest c := by
  obtain ⟨x, y⟩ := a
  rfl

theorem lookup_useCode_self (l : List (String × OneTimeCode)) (code : String) :
    lookupCode (l.map (fun p => if p.1 = code then (p.1, ({ used := true } : OneTimeCode)) else p)) code
      = (lookupCode l code).map (fun _ => ({ used := true } : OneTimeCode)) := by
  induction l with
  | nil => rfl
  | cons p t ih =>
      obtain ⟨k, v⟩ := p
      rw [List.map_cons]
      by_cases hk : k = code
      · subst hk
        rw [if_pos (show ((k, v) : String × OneTimeCode).1 = k from rfl),
          lookupCode_cons, lookupCode_cons]
        simp
      · rw [if_neg hk, lookupCode_cons, lookupCode_cons, if_neg hk, if_neg hk]
        exact ih

theorem useCode_lookup (m : AuthManager) (code : String) :
    lookupCode ((m.useCode code).oneTimeCodes) code
      = (lookupCode m.oneTimeCodes code).map (fun _ => ({ used := true } : OneTimeCode)) := by
  obtain ⟨l⟩ := m
  exact lookup_useCode_self l code

theorem useCode_marks_used (m : AuthManager) (code : String)
    (h : m.hasCode code = true) :
    (m.useCode code).isCodeUsed code = true := by
  have hl := useCode_lookup m code
  unfold AuthManager.hasCode at h
  unfold AuthManager.isCodeUsed AuthManager.hasCode
  cases hx : lookupCode m.oneTimeCodes code with
  | none => rw [hx] at h; simp at h
  | some v =>
      rw [hx] at hl
      rw [hl]
      simp

theorem useCode_keeps_code (m : AuthManager) (code : String)
    (h : m.hasCode code = true) :
    (m.useCode code).hasCode code = true := by
  have hl := useCode_lookup m code
  unfold AuthManager.hasCode at h ⊢
  cases hx : lookupCode m.oneTimeCodes code with
  | none => rw [hx] at h; simp at h
  | some v =>
      rw [hx] at hl
      rw [hl]
      simp

/-! #### Claim theorems: one-time-code auth and stage machine -/

/-- The "Outdated client" kick component built at
src/server/connection.rs line 314. -/
def outdatedMsg : TextComponent :=
  TextComponent.plain ("Outdated client! Please use " ++ ProtocolVersion.name_1_21)

/-- C5: a chat message received in the Play stage whose text is a registered,
unused code makes the handler mark the code used, send exactly one Profile
(the connection's) over that code's channel, and kick the player with a
`PlayDisconnect` whose text is "Authorization successful! "; a second
submission of the same code yields the already-used chat message, no channel
send and no state change. -/
theorem claim_C5_auth_code_flow (c : ConnState) (m : AuthManager) (profile : Profile)
    (code : String) (hstage : c.stage = Stage.Play) (hopen : c.closed = false)
    (hhas : m.hasCode code = true) (hunused : m.isCodeUsed code = false) :
    stepConn c m profile (InPacket.chat code)
      = (c, m.useCode code,
          [OutEvent.channelSend code profile,
           OutEvent.packet (OutPacket.playDisconnect authSuccessMsg)])
    ∧ (m.useCode code).isCodeUsed code = true
    ∧ authSuccessMsg.text = some "Authorization successful! "
    ∧ stepConn c (m.useCode code) profile (InPacket.chat code)
      = (c, m.useCode code,
          [OutEvent.packet (OutPacket.gameMessage codeUsedMsg false)]) := by
  obtain ⟨st, ver, un, cl⟩ := c
  have hst : st = Stage.Play := hstage
  have hcl : cl = false := hopen
  subst hst
  subst hcl
  refine ⟨?_, useCode_marks_used m code hhas, rfl, ?_⟩
  · simp [stepConn, AuthPacketHandler.onChat, hhas, hunused, PacketHandler.kick]
  · have h1 := useCode_keeps_code m code hhas
    have h2 := useCode_marks_used m code hhas
    simp [stepConn, AuthPacketHandler.onChat, h1, h2]

/-- C5 witness: the code flow at a concrete Play-stage connection and manager. -/
theorem claim_C5_auth_code_flow_witness :
    (({ stage := Stage.Play, version := 767, username := "Bob", closed := false } : ConnState).stage
        = Stage.Play)
    ∧ (AuthManager.mk [("abcd1234efgh5678", OneTimeCode.new)]).hasCode "abcd1234efgh5678" = true
    ∧ (AuthManager.mk [("abcd1234efgh5678", OneTimeCode.new)]).isCodeUsed "abcd1234efgh5678" = false
    ∧ (stepConn { stage := Stage.Play, version := 767, username := "Bob", closed := false }
        (AuthManager.mk [("abcd1234efgh5678", OneTimeCode.new)])
        { id := 1, name := "Bob", properties := [] } (InPacket.chat "abcd1234efgh5678")
      = ({ stage := Stage.Play, version := 767, username := "Bob", closed := false },
          (AuthManager.mk [("abcd1234efgh5678", OneTimeCode.new)]).useCode "abcd1234efgh5678",
          [OutEvent.channelSend "abcd1234efgh5678" { id := 1, name := "Bob", properties := [] },
           OutEvent.packet (OutPacket.playDisconnect authSuccessMsg)])) :=
  ⟨rfl, rfl, rfl,
    (claim_C5_auth_code_flow
      { stage := Stage.Play, version := 767, username := "Bob", closed := false }
      (AuthManager.mk [("abcd1234efgh5678", OneTimeCode.new)])
      { id := 1, name := "Bob", properties := [] }
      "abcd1234efgh5678" rfl rfl rfl rfl).1⟩

/-- C6 counterexample: after a handshake carrying version 754 and
next-stage Login, the server answers a first login-start with one
`LoginDisconnect` ("Outdated client! Please use 1.21") but does **not** close
the connection: a second login-start is processed and produces a second
`LoginDisconnect`, contradicting "sends exactly one LoginDisconnect ... and
then closes the connection, ... processing no further packets". -/
theorem claim_C6_counterexample :
    (runConn ConnState.initial (AuthManager.mk []) { id := 0, name := "Unknown", properties := [] }
        [InPacket.handshake 754 "x" 25565 2,
         InPacket.loginHello "Alice",
         InPacket.loginHello "Alice"]).2.2
      = [OutEvent.packet (OutPacket.loginDisconnect outdatedMsg),
         OutEvent.packet (OutPacket.loginDisconnect outdatedMsg)]
    ∧ (runConn ConnState.initial (AuthManager.mk []) { id := 0, name := "Unknown", properties := [] }
        [InPacket.handshake 754 "x" 25565 2,
         InPacket.loginHello "Alice",
         InPacket.loginHello "Alice"]).1.closed = false :=
  ⟨rfl, rfl⟩

/-- C6 (amended): on a login-start while the negotiated version differs from
1.21, the server sends exactly one `LoginDisconnect` carrying the
"Outdated client! Please use 1.21" text, and the connection state is left
unchanged — the handler `continue`s rather than closing, so later packets are
still dispatched. -/
theorem claim_C6_outdated_client (c : ConnState) (m : AuthManager) (profile : Profile)
    (name : String) (hstage : c.stage = Stage.Login) (hopen : c.closed = false)
    (hver : c.version ≠ ProtocolVersion.v1_21) :
    stepConn c m profile (InPacket.loginHello name)
      = (c, m, [OutEvent.packet (OutPacket.loginDisconnect outdatedMsg)])
    ∧ outdatedMsg.text = some "Outdated client! Please use 1.21" := by
  obtain ⟨st, ver, un, cl⟩ := c
  have hst : st = Stage.Login := hstage
  have hcl : cl = false := hopen
  subst hst
  subst hcl
  have hv : ver ≠ ProtocolVersion.v1_21 := hver
  refine ⟨?_, rfl⟩
  simp [stepConn, hv, PacketHandler.kick, outdatedMsg]

/-- C6 witness: a concrete Login-stage connection with version 754. -/
theorem claim_C6_outdated_client_witness :
    (({ stage := Stage.Login, version := 754, username := "Offline", closed := false } : ConnState).version
        ≠ ProtocolVersion.v1_21)
    ∧ (stepConn { stage := Stage.Login, version := 754, username := "Offline", closed := false }
        (AuthManager.mk []) { id := 0, name := "Unknown", properties := [] }
        (InPacket.loginHello "Alice")
      = ({ stage := Stage.Login, version := 754, username := "Offline", closed := false },
          AuthManager.mk [], [OutEvent.packet (OutPacket.loginDisconnect outdatedMsg)])) :=
  ⟨by decide,
    (claim_C6_outdated_client _ _ _ _ rfl rfl (by decide)).1⟩

/-- C10: `Stage::from_id` maps every id other than 1 (Status), 2 (Login) and
3 (Transfer) — including 0 — to `Invalid`; the dispatcher handles no packet in
the `Invalid` stage; and `kick` sends no packet and returns `Ok(false)` when
the stage is neither Login, Config nor Play. -/
theorem claim_C10_invalid_stage :
    Stage.fromId 1 = Stage.Status ∧ Stage.fromId 2 = Stage.Login
    ∧ Stage.fromId 3 = Stage.Transfer ∧ Stage.fromId 0 = Stage.Invalid
    ∧ (∀ id : Int, id ≠ 1 → id ≠ 2 → id ≠ 3 → Stage.fromId id = Stage.Invalid)
    ∧ (∀ (c : ConnState) (m : AuthManager) (profile : Profile) (p : InPacket),
        c.stage = Stage.Invalid → c.closed = false →
        stepConn c m profile p = (c, m, []))
    ∧ (∀ (st : Stage) (reason : TextComponent),
        st ≠ Stage.Login → st ≠ Stage.Config → st ≠ Stage.Play →
        PacketHandler.kick st reason = (false, [])) := by
  refine ⟨rfl, rfl, rfl, rfl, ?_, ?_, ?_⟩
  · intro id h1 h2 h3
    unfold Stage.fromId
    split
    · exact absurd rfl h1
    · exact absurd rfl h2
    · exact absurd rfl h3
    · rfl
  · intro c m profile p hstage hopen
    obtain ⟨st, ver, un, cl⟩ := c
    have hst : st = Stage.Invalid := hstage
    have hcl : cl = false := hopen
    subst hst
    subst hcl
    cases p <;> rfl
  · intro st reason h1 h2 h3
    cases st with
    | Login => exact absurd rfl h1
    | Config => exact absurd rfl h2
    | Play => exact absurd rfl h3
    | _ => rfl

/-- C10 witness: id 0 maps to Invalid, a concrete Invalid-stage connection
ignores a chat packet, and `kick` in the Status stage sends nothing. -/
theorem claim_C10_invalid_stage_witness :
    Stage.fromId 0 = Stage.Invalid
    ∧ (stepConn { stage := Stage.Invalid, version := -1, username := "x", closed := false }
        (AuthManager.mk []) { id := 0, name := "Unknown", properties := [] }
        (InPacket.chat "hi")
      = ({ stage := Stage.Invalid, version := -1, username := "x", closed := false },
          AuthManager.mk [], []))
    ∧ PacketHandler.kick Stage.Status (TextComponent.plain "bye") = (false, []) :=
  ⟨claim_C10_invalid_stage.2.2.2.2.1 0 (by decide) (by decide) (by decide),
    claim_C10_invalid_stage.2.2.2.2.2.1
      { stage := Stage.Invalid, version := -1, username := "x", closed := false }
      (AuthManager.mk []) { id := 0, name := "Unknown", properties := [] }
      (InPacket.chat "hi") rfl rfl,
    claim_C10_invalid_stage.2.2.2.2.2.2 Stage.Status (TextComponent.plain "bye")
      (by decide) (by decide) (by decide)⟩

/-! ### Byte-stream primitives shared by the codecs

Big-endian multi-byte reads and writes over a `List Nat` of bytes, as done by
the `bytes`/`byteorder` crates (`put_u32`/`put_uint`/`get_u32`/`get_uint`). -/

/-- `put_uint`-style big-endian bytes of `n` (low `w` bytes, most significant
first). -/
def natToBytesBE : Nat → Nat → List Nat
  | 0, _ => []
  | w + 1, n => (n / 256 ^ w % 256) :: natToBytesBE w n

/-- Value of a big-endian byte run (`get_uint`-style accumulation). -/
def natFromBytesBE (l : List Nat) : Nat :=
  l.foldl (fun acc b => acc * 256 + b) 0

/-- Sequential big-endian read of `w` bytes with accumulator; `none` models
the panic of reading past the end of the stream. -/
def readBytesBE : Nat → Nat → List Nat → Option (Nat × List Nat)
  | 0, acc, l => some (acc, l)
  | _ + 1, _, [] => none
  | w + 1, acc, b :: t => readBytesBE w (acc * 256 + b) t

/-- `concat_map` over a list (used to model header tables written record by
record). -/
def concatMap (f : α → List β) : List α → List β
  | [] => []
  | a :: t => f a ++ concatMap f t

theorem natToBytesBE_length (w n : Nat) : (natToBytesBE w n).length = w := by
  induction w generalizing n with
  | zero => rfl
  | succ w ih => simp [natToBytesBE, ih]

theorem natFromBytesBE_foldl (l : List Nat) (acc : Nat) :
    l.foldl (fun acc b => acc * 256 + b) acc
      = acc * 256 ^ l.length + natFromBytesBE l := by
  induction l generalizing acc with
  | nil => simp [natFromBytesBE]
  | cons b t ih =>
      simp only [List.foldl_cons, natFromBytesBE, List.length_cons]
      rw [ih (acc * 256 + b), ih (0 * 256 + b)]
      ring

theorem natFromBytesBE_toBytes (w n : Nat) :
    natFromBytesBE (natToBytesBE w n) = n % 256 ^ w := by
  induction w generalizing n with
  | zero => simp [natToBytesBE, natFromBytesBE, Nat.mod_one]
  | succ w ih =>
      show natFromBytesBE ((n / 256 ^ w % 256) :: natToBytesBE w n) = n % 256 ^ (w + 1)
      unfold natFromBytesBE
      rw [List.foldl_cons]
      rw [natFromBytesBE_foldl]
      rw [natToBytesBE_length]
      have hmm : n % 256 ^ (w + 1) = n % 256 ^ w + 256 ^ w * (n / 256 ^ w % 256) := by
        have h256 : (256 : Nat) ^ (w + 1) = 256 ^ w * 256 := by ring
        rw [h256, Nat.mod_mul]
      rw [ih n, hmm]
      ring

theorem readBytesBE_append (w : Nat) (n : Nat) (acc : Nat) (rest : List Nat) :
    readBytesBE w acc (natToBytesBE w n ++ rest)
      = some (acc * 256 ^ w + n % 256 ^ w, rest) := by
  induction w generalizing n acc with
  | zero => simp [natToBytesBE, readBytesBE, Nat.mod_one]
  | succ w ih =>
      show readBytesBE (w + 1) acc ((n / 256 ^ w % 256) :: (natToBytesBE w n ++ rest)) = _
      unfold readBytesBE
      rw [ih]
      have hmm : n % 256 ^ (w + 1) = n % 256 ^ w + 256 ^ w * (n / 256 ^ w % 256) := by
        have h256 : (256 : Nat) ^ (w + 1) = 256 ^ w * 256 := by ring
        rw [h256, Nat.mod_mul]
      have : (acc * 256 + n / 256 ^ w % 256) * 256 ^ w + n % 256 ^ w
          = acc * 256 ^ (w + 1) + n % 256 ^ (w + 1) := by
        rw [hmm]
        ring
      rw [this]

theorem concatMap_length_fixed (f : α → List β) (k : Nat) (l : List α)
    (hf : ∀ a ∈ l, (f a).length = k) : (concatMap f l).length = l.length * k := by
  induction l with
  | nil => simp [concatMap]
  | cons a t ih =>
      simp only [concatMap, List.length_append, List.length_cons]
      rw [hf a (List.mem_cons_self a t), ih (fun b hb => hf b (List.mem_cons_of_mem a hb))]
      ring

theorem concatMap_drop_fixed (f : α → List β) (k : Nat) (l : List α)
    (hf : ∀ a ∈ l, (f a).length = k) (i : Nat) :
    (concatMap f l).drop (k * i) = concatMap f (l.drop i) := by
  induction i generalizing l with
  | zero => simp
  | succ i ih =>
      cases l with
      | nil => simp [concatMap]
      | cons a t =>
          have hk : k * (i + 1) = k + k * i := by ring
          simp only [concatMap, List.drop_succ_cons]
          rw [hk, ← List.drop_drop]
          rw [List.drop_left' (hf a (List.mem_cons_self a t))]
          exact ih t (fun b hb => hf b (List.mem_cons_of_mem a hb))

/-! ### Region files — src/region.rs

The backing stream (`R: Read + Seek`) is a `List Nat` of bytes.  `expect`
panics on short reads are modelled with `Option`. -/

/-- `ChunkInfo` — src/region.rs lines 9-13 (`offset: u32`, `sectors: u8`). -/
structure ChunkInfo where
  offset : Nat
  sectors : Nat
deriving DecidableEq, Repr

/-- Two's-complement wrap of an `i32` value. -/
def wrap32 (v : Int) : Int := (v + 2 ^ 31) % 2 ^ 32 - 2 ^ 31

/-- `as usize` on an `i32` (sign-extend, then reinterpret as unsigned 64-bit). -/
def usizeOfI32 (v : Int) : Nat := (wrap32 v % 2 ^ 64).toNat

/-- `ChunkInfo::get_index` — src/region.rs lines 20-23:
`((chunk_z << 5) + chunk_x) as usize`, with `<<` and `+` wrapping at 32 bits
(release semantics; the claims only exercise non-overflowing inputs) and no
`& 31` masking anywhere. -/
def ChunkInfo.getIndex (chunkX chunkZ : Int) : Nat :=
  usizeOfI32 (wrap32 (wrap32 (chunkZ * 2 ^ 5) + chunkX))

/-- `RegionHeader` — src/region.rs lines 26-29. -/
structure RegionHeader where
  chunks : List ChunkInfo
  timestamps : List Nat
deriving DecidableEq, Repr

/-- `RegionHeader::new` — src/region.rs lines 32-37. -/
def RegionHeader.new : RegionHeader :=
  { chunks := List.replicate 1024 { offset := 0, sectors := 0 },
    timestamps := List.replicate 1024 0 }

/-- `Region` — src/region.rs lines 40-43. -/
structure Region where
  file : List Nat
  header : RegionHeader

/-- `Region::load` — src/region.rs lines 51-72: read 8 KiB into a
zero-initialised buffer (a shorter file leaves trailing zeros), then decode
1024 × (u24 offset, u8 sectors) records followed by 1024 × u32 timestamps.
The sequential `get_uint(3)/get_u8/get_u32` reads are rendered positionally:
record `i` occupies bytes `4*i .. 4*i+3` and timestamp `i` occupies bytes
`4096 + 4*i ..`. -/
def Region.load (file : List Nat) : Region :=
  let headerBuf := file.take 8192 ++ List.replicate (8192 - file.length) 0
  { file := file,
    header :=
      { chunks := (List.range 1024).map (fun i =>
          { offset := natFromBytesBE ((headerBuf.drop (4 * i)).take 3),
            sectors := (headerBuf.drop (4 * i)).getD 3 0 }),
        timestamps := (List.range 1024).map (fun i =>
          natFromBytesBE ((headerBuf.drop (4096 + 4 * i)).take 4)) } }

/-- `Region::get_timestamp` — src/region.rs lines 74-76
(`timestamps.get(index)`). -/
def Region.getTimestamp (r : Region) (chunkX chunkZ : Int) : Option Nat :=
  r.header.timestamps[ChunkInfo.getIndex chunkX chunkZ]?

/-- `Region::get_chunk_raw` — src/region.rs lines 79-98: `None` when the slot
is out of range or its offset/sector count is zero; otherwise seek to
`offset * 4096`, read a big-endian u32 `length`, and return the next
`length + 1` bytes.  Reading past the end of the stream panics in the source
(`expect`), modelled as `none`. -/
def Region.getChunkRaw (r : Region) (chunkX chunkZ : Int) : Option (List Nat) :=
  (r.header.chunks[ChunkInfo.getIndex chunkX chunkZ]?).bind (fun info =>
    if info.offset = 0 ∨ info.sectors = 0 then none
    else
      (readBytesBE 4 0 (r.file.drop (info.offset * 4096))).bind (fun lr =>
        if lr.2.length < lr.1 + 1 then none
        else some (lr.2.take (lr.1 + 1))))

/-- `RegionWriter` — src/region.rs lines 155-159. -/
structure RegionWriter where
  data : List Nat
  currentSector : Nat
  header : RegionHeader
deriving DecidableEq, Repr

/-- `RegionWriter::new` — src/region.rs lines 162-168. -/
def RegionWriter.new : RegionWriter :=
  { data := [], currentSector := 0, header := RegionHeader.new }

/-- The value `n as f32` of a natural number: round to the nearest number
with a 24-bit significand, ties to even.  Below `2 ^ 24` every natural is
exactly representable; above, the unit in the last place of `n`'s binade is
`2 ^ (ilog2 n - 23)` and `n` rounds to the nearest multiple of it.  (Faithful
up to the `f32` overflow threshold `2 ^ 128`, astronomically beyond any
vector length.) -/
def f32ofNat (n : Nat) : Nat :=
  if n ≤ 2 ^ 24 then n
  else
    let e := Nat.log2 n - 23
    let q := n / 2 ^ e
    let r := n % 2 ^ e
    if 2 * r < 2 ^ e then q * 2 ^ e
    else if 2 ^ e < 2 * r then (q + 1) * 2 ^ e
    else (if q % 2 = 0 then q else q + 1) * 2 ^ e

theorem f32ofNat_eq_self (n : Nat) (h : n ≤ 2 ^ 24) : f32ofNat n = n := by
  unfold f32ofNat
  rw [if_pos h]

/-- `RegionWriter::set_chunk_raw` — src/region.rs lines 178-198.  `data` is
1 compression byte + n payload bytes.  Writes `(data.len() - 1)` as a
big-endian u32 then `data`, pads to a 4 KiB multiple, advances the sector
cursor, and stores `(current_sector + 2, num_sectors as u8)` in the header —
the `as u8` cast truncates modulo 256 and raises no error.  Line 185
computes `num_sectors = ((full_len as f32) / 4096f32).ceil() as usize`: the
`as f32` conversion is `f32ofNat`, the division by `4096 = 2^12` only shifts
the exponent and is exact, and the ceiling of the resulting 24-bit-significand
value is exactly representable, so `num_sectors = ⌈f32ofNat full_len / 4096⌉`.
`none` models the three panics: the `data.len() - 1` underflow on an empty
payload, the out-of-bounds `chunks[offset]` write, and the line-186 usize
underflow `num_sectors * 4096 - full_len` when the `f32` conversion rounded
`full_len` down past a sector boundary. -/
def RegionWriter.setChunkRaw (w : RegionWriter) (chunkX chunkZ : Int) (data : List Nat) :
    Option RegionWriter :=
  let offset := ChunkInfo.getIndex chunkX chunkZ
  if data.length = 0 then none
  else if 1024 ≤ offset then none
  else
    let buf := natToBytesBE 4 ((data.length - 1) % 2 ^ 32) ++ data
    let fullLen := data.length + 4
    let numSectors := (f32ofNat fullLen + 4095) / 4096
    if numSectors * 4096 < fullLen then none
    else
      let pad := numSectors * 4096 - fullLen
      some { data := w.data ++ buf ++ List.replicate pad 0,
             currentSector := w.currentSector + numSectors,
             header :=
               { chunks := w.header.chunks.set offset
                   { offset := (w.currentSector + 2) % 2 ^ 32, sectors := numSectors % 256 },
                 timestamps := w.header.timestamps } }

/-- `RegionWriter::set_chunk_timestamp` — src/region.rs lines 200-202
(`none` models the out-of-bounds index panic; the timestamp is a u32). -/
def RegionWriter.setChunkTimestamp (w : RegionWriter) (chunkX chunkZ : Int)
    (timestamp : Nat) : Option RegionWriter :=
  let idx := ChunkInfo.getIndex chunkX chunkZ
  if 1024 ≤ idx then none
  else some { w with header :=
    { chunks := w.header.chunks,
      timestamps := w.header.timestamps.set idx (timestamp % 2 ^ 32) } }

/-- `RegionWriter::serialize` — src/region.rs lines 204-217: 1024 × (u24
offset, u8 sectors), 1024 × u32 timestamps, then the accumulated chunk data.
`put_uint(offset, 3)` keeps the low three bytes and `put_u32` the low four;
the u8 `sectors` field is < 256 by construction. -/
def RegionWriter.serialize (w : RegionWriter) : List Nat :=
  concatMap (fun c => natToBytesBE 3 c.offset ++ [c.sectors]) w.header.chunks
    ++ concatMap (fun t => natToBytesBE 4 t) w.header.timestamps
    ++ w.data

/-! #### Region lemmas -/

theorem wrap32_eq_self (v : Int) (h1 : -(2 ^ 31) ≤ v) (h2 : v < 2 ^ 31) : wrap32 v = v := by
  unfold wrap32
  omega

theorem getIndex_eq (x z : Int) (hx0 : 0 ≤ x) (hx : x < 32) (hz0 : 0 ≤ z) (hz : z < 32) :
    ChunkInfo.getIndex x z = (z * 32 + x).toNat := by
  unfold ChunkInfo.getIndex usizeOfI32
  have e1 : wrap32 (z * 2 ^ 5) = z * 32 := by
    apply wrap32_eq_self <;> omega
  rw [e1]
  have e2 : wrap32 (z * 32 + x) = z * 32 + x := by
    apply wrap32_eq_self <;> omega
  rw [e2, e2]
  omega

theorem getIndex_lt (x z : Int) (hx0 : 0 ≤ x) (hx : x < 32) (hz0 : 0 ≤ z) (hz : z < 32) :
    ChunkInfo.getIndex x z < 1024 := by
  rw [getIndex_eq x z hx0 hx hz0 hz]
  omega

theorem chunkRecord_length (c : ChunkInfo) :
    (natToBytesBE 3 c.offset ++ [c.sectors]).length = 4 := by
  simp [natToBytesBE_length]

theorem serialize_header_split (w : RegionWriter) :
    w.serialize
      = (concatMap (fun c => natToBytesBE 3 c.offset ++ [c.sectors]) w.header.chunks
          ++ concatMap (fun t => natToBytesBE 4 t) w.header.timestamps) ++ w.data := by
  unfold RegionWriter.serialize
  rw [List.append_assoc]

theorem serialize_CB_length (w : RegionWriter) (hc : w.header.chunks.length = 1024) :
    (concatMap (fun c => natToBytesBE 3 c.offset ++ [c.sectors]) w.header.chunks).length
      = 4096 := by
  rw [concatMap_length_fixed _ 4 _ (fun a _ => chunkRecord_length a), hc]

theorem serialize_TB_length (w : RegionWriter) (ht : w.header.timestamps.length = 1024) :
    (concatMap (fun t => natToBytesBE 4 t) w.header.timestamps).length = 4096 := by
  rw [concatMap_length_fixed _ 4 _ (fun a _ => natToBytesBE_length 4 a), ht]

/-- The 8 KiB header buffer `Region::load` sees on a serialized writer is
exactly the two header tables. -/
theorem load_headerBuf (w : RegionWriter)
    (hc : w.header.chunks.length = 1024) (ht : w.header.timestamps.length = 1024) :
    w.serialize.take 8192 ++ List.replicate (8192 - w.serialize.length) 0
      = concatMap (fun c => natToBytesBE 3 c.offset ++ [c.sectors]) w.header.chunks
          ++ concatMap (fun t => natToBytesBE 4 t) w.header.timestamps := by
  rw [serialize_header_split w]
  have hlen : (concatMap (fun c => natToBytesBE 3 c.offset ++ [c.sectors]) w.header.chunks
      ++ concatMap (fun t => natToBytesBE 4 t) w.header.timestamps).length = 8192 := by
    rw [List.length_append, serialize_CB_length w hc, serialize_TB_length w ht]
  rw [List.take_left' hlen]
  have : 8192 - ((concatMap (fun c => natToBytesBE 3 c.offset ++ [c.sectors]) w.header.chunks
      ++ concatMap (fun t => natToBytesBE 4 t) w.header.timestamps) ++ w.data).length = 0 := by
    rw [List.length_append, hlen]
    omega
  rw [this]
  simp

/-- Loading a serialized writer recovers each header chunk record (offset
modulo 2^24, the u8 sector byte verbatim). -/
theorem load_serialize_chunk_entry (w : RegionWriter) (i : Nat)
    (hc : w.header.chunks.length = 1024) (ht : w.header.timestamps.length = 1024)
    (hi : i < 1024) :
    (Region.load w.serialize).header.chunks[i]?
      = (w.header.chunks[i]?).map
          (fun c => ({ offset := c.offset % 2 ^ 24, sectors := c.sectors } : ChunkInfo)) := by
  have hb := load_headerBuf w hc ht
  unfold Region.load
  simp only [List.getElem?_map, List.getElem?_range hi, Option.map_some']
  rw [hb]
  have hgi : i < w.header.chunks.length := by omega
  have hdropc : w.header.chunks.drop i
      = w.header.chunks[i] :: w.header.chunks.drop (i + 1) :=
    List.drop_eq_getElem_cons hgi
  have h4i : 4 * i ≤ (concatMap (fun c => natToBytesBE 3 c.offset ++ [c.sectors]) w.header.chunks).length := by
    rw [serialize_CB_length w hc]
    omega
  rw [List.drop_append_of_le_length h4i]
  rw [concatMap_drop_fixed _ 4 _ (fun a _ => chunkRecord_length a) i]
  rw [hdropc]
  simp only [concatMap]
  rw [List.getElem?_eq_getElem hgi, Option.map_some']
  set c := w.header.chunks[i] with hcdef
  have hexp : natToBytesBE 3 c.offset
      = [c.offset / 256 ^ 2 % 256, c.offset / 256 ^ 1 % 256, c.offset / 256 ^ 0 % 256] := rfl
  rw [List.append_assoc (natToBytesBE 3 c.offset) [c.sectors], List.append_assoc]
  rw [List.take_left' (natToBytesBE_length 3 c.offset)]
  rw [natFromBytesBE_toBytes]
  rw [hexp]
  simp [List.getD]

/-- Loading a serialized writer recovers each timestamp modulo 2^32. -/
theorem load_serialize_timestamp_entry (w : RegionWriter) (i : Nat)
    (hc : w.header.chunks.length = 1024) (ht : w.header.timestamps.length = 1024)
    (hi : i < 1024) :
    (Region.load w.serialize).header.timestamps[i]?
      = (w.header.timestamps[i]?).map (fun t => t % 2 ^ 32) := by
  have hb := load_headerBuf w hc ht
  unfold Region.load
  simp only [List.getElem?_map, List.getElem?_range hi, Option.map_some']
  rw [hb]
  have hgi : i < w.header.timestamps.length := by omega
  have hdropt : w.header.timestamps.drop i
      = w.header.timestamps[i] :: w.header.timestamps.drop (i + 1) :=
    List.drop_eq_getElem_cons hgi
  rw [← List.drop_drop (4 * i) 4096]
  rw [List.drop_left' (serialize_CB_length w hc)]
  rw [concatMap_drop_fixed _ 4 _ (fun a _ => natToBytesBE_length 4 a) i]
  rw [hdropt]
  simp only [concatMap]
  rw [List.getElem?_eq_getElem hgi, Option.map_some']
  rw [List.take_left' (natToBytesBE_length 4 w.header.timestamps[i])]
  rw [natFromBytesBE_toBytes]
  norm_num

/-! #### Claim theorems: region index, writer errors, round trip -/

/-- C7 counterexample: the header-table index contains no `& 31` masking.
At `(chunk_x, chunk_z) = (32, 0)` — a pair the region code accepts
(`set_chunk_timestamp` succeeds on it) — the index used is 32, while
`(chunk_z & 31) × 32 + (chunk_x & 31) = 0`. -/
theorem claim_C7_counterexample :
    ChunkInfo.getIndex 32 0 = 32
    ∧ (((0 : Nat) &&& 31) * 32 + ((32 : Nat) &&& 31)) = 0
    ∧ (RegionWriter.new.setChunkTimestamp 32 0 5).isSome = true
    ∧ ChunkInfo.getIndex 32 0 ≠ (((0 : Nat) &&& 31) * 32 + ((32 : Nat) &&& 31)) := by
  refine ⟨by decide, by decide, rfl, by decide⟩

/-- C7 (amended): for the coordinates addressing a region's own slots,
`0 ≤ chunk_x, chunk_z < 32`, the index `(chunk_z << 5) + chunk_x` used by all
header accesses (`Region::get_timestamp`, `Region::get_chunk_raw`,
`Region::get_chunk_data`, `RegionWriter::set_chunk_raw`,
`RegionWriter::set_chunk_timestamp` all index through
`ChunkInfo::get_index`) agrees with `(chunk_z & 31) × 32 + (chunk_x & 31)`;
outside that range the code performs no masking (see the counterexample). -/
theorem claim_C7_header_index (x z : Int)
    (hx0 : 0 ≤ x) (hx : x < 32) (hz0 : 0 ≤ z) (hz : z < 32) :
    ChunkInfo.getIndex x z = (z.toNat &&& 31) * 32 + (x.toNat &&& 31) := by
  rw [getIndex_eq x z hx0 hx hz0 hz]
  have e31 : (31 : Nat) = 2 ^ 5 - 1 := by norm_num
  rw [e31, Nat.and_pow_two_sub_one_eq_mod, Nat.and_pow_two_sub_one_eq_mod]
  have hxm : x.toNat % 2 ^ 5 = x.toNat := Nat.mod_eq_of_lt (by omega)
  have hzm : z.toNat % 2 ^ 5 = z.toNat := Nat.mod_eq_of_lt (by omega)
  rw [hxm, hzm]
  omega

/-- C7 witness: the amended index identity at `(5, 7)`. -/
theorem claim_C7_header_index_witness :
    (0 : Int) ≤ 5 ∧ (5 : Int) < 32 ∧ (0 : Int) ≤ 7 ∧ (7 : Int) < 32
    ∧ ChunkInfo.getIndex 5 7 = (((7 : Int).toNat &&& 31) * 32 + ((5 : Int).toNat &&& 31)) :=
  ⟨by decide, by decide, by decide, by decide,
    claim_C7_header_index 5 7 (by decide) (by decide) (by decide) (by decide)⟩

/-- Symbolic evaluation of `RegionWriter::set_chunk_raw` on the non-panicking
path. -/
theorem setChunkRaw_spec (w : RegionWriter) (x z : Int) (data : List Nat)
    (hne : data.length ≠ 0) (hidx : ChunkInfo.getIndex x z < 1024)
    (hex : data.length + 4 ≤ 2 ^ 24) :
    w.setChunkRaw x z data = some
      { data := w.data ++ (natToBytesBE 4 ((data.length - 1) % 2 ^ 32) ++ data)
          ++ List.replicate ((data.length + 4 + 4095) / 4096 * 4096 - (data.length + 4)) 0,
        currentSector := w.currentSector + (data.length + 4 + 4095) / 4096,
        header := { chunks := w.header.chunks.set (ChunkInfo.getIndex x z) (ChunkInfo.mk ((w.currentSector + 2) % 2 ^ 32) ((data.length + 4 + 4095) / 4096 % 256)), timestamps := w.header.timestamps } } := by
  simp only [RegionWriter.setChunkRaw]
  rw [if_neg hne, if_neg (by omega : ¬ 1024 ≤ ChunkInfo.getIndex x z)]
  simp only [f32ofNat_eq_self (data.length + 4) hex]
  rw [if_neg (show ¬ (data.length + 4 + 4095) / 4096 * 4096 < data.length + 4 from by
    have hdm := Nat.div_add_mod (data.length + 4 + 4095) 4096
    have hm : (data.length + 4 + 4095) % 4096 < 4096 := Nat.mod_lt _ (by norm_num)
    have hc : 4096 * ((data.length + 4 + 4095) / 4096)
        = (data.length + 4 + 4095) / 4096 * 4096 := by ring
    omega)]

/-- Where the `f32` ceiling stops being exact the writer does not follow the
exact ceiling either: at payload length `2^24 - 3`, `full_len = 2^24 + 1`
rounds (ties to even) down to `2^24`, `num_sectors = 4096`, and the pad
subtraction `4096 * 4096 - (2^24 + 1)` underflows — the call panics. -/
theorem setChunkRaw_f32_underflow :
    RegionWriter.new.setChunkRaw 0 0 (List.replicate (2 ^ 24 - 3) 7) = none := by
  have hlog : Nat.log2 (2 ^ 24 + 1) = 24 := by
    rw [Nat.log2_eq_log_two]
    exact Nat.log_eq_of_pow_le_of_lt_pow (by norm_num) (by norm_num)
  have hf : f32ofNat (2 ^ 24 + 1) = 2 ^ 24 := by
    unfold f32ofNat
    rw [if_neg (by norm_num)]
    rw [hlog]
    norm_num
  simp only [RegionWriter.setChunkRaw]
  rw [if_neg (by rw [List.length_replicate]; norm_num),
    if_neg (by decide : ¬ 1024 ≤ ChunkInfo.getIndex 0 0)]
  rw [List.length_replicate]
  rw [show (2 : Nat) ^ 24 - 3 + 4 = 2 ^ 24 + 1 from by norm_num]
  rw [hf]
  rw [if_pos (by norm_num)]

/-- C8 counterexample: `set_chunk_raw` raises no error on an oversized
payload.  With a 1 044 477-byte payload (padded size 256 sectors, one over
the 255-sector limit) it succeeds and records sector count `256 as u8 = 0` —
a wrong header entry instead of a failure. -/
theorem claim_C8_counterexample :
    ((RegionWriter.new.setChunkRaw 0 0 (List.replicate 1044477 7)).map
        (fun w' => w'.header.chunks[ChunkInfo.getIndex 0 0]?))
      = some (some { offset := 2, sectors := 0 }) := by
  rw [setChunkRaw_spec RegionWriter.new 0 0 (List.replicate 1044477 7)
    (by rw [List.length_replicate]; omega) (by decide)
    (by rw [List.length_replicate]; norm_num)]
  simp only [Option.map_some']
  rw [List.getElem?_set_self]
  · rw [List.length_replicate]
    norm_num [ChunkInfo.mk.injEq]
    rfl
  · show ChunkInfo.getIndex 0 0 < (List.replicate 1024 ({ offset := 0, sectors := 0 } : ChunkInfo)).length
    rw [List.length_replicate]
    decide

/-- C8 (amended): for every payload whose padded size stays where the `f32`
sector ceiling is exact (`len + 4 ≤ 2 ^ 24`, sixteen times the format's own
255-sector ceiling), `set_chunk_raw` never fails on a non-empty payload at an
in-range slot.  The stored u8 sector count is `ceil((len + 4) / 4096) mod
256` — truncated, so payloads whose padded size exceeds 255 sectors record a
wrong header entry rather than erroring — and for every payload at or below
that limit the stored count equals `ceil((len + 4) / 4096)` untruncated,
with the stored offset the next free sector starting at 2.  (Past `2 ^ 24`
the `as f32` conversion rounds `full_len` itself, and when it rounds down
past a sector boundary the line-186 pad subtraction underflows instead.) -/
theorem claim_C8_sector_count (w : RegionWriter) (x z : Int) (data : List Nat)
    (hx0 : 0 ≤ x) (hx : x < 32) (hz0 : 0 ≤ z) (hz : z < 32)
    (hlen : w.header.chunks.length = 1024)
    (hcur : w.currentSector + 2 < 2 ^ 32)
    (hne : data.length ≠ 0) (hex : data.length + 4 ≤ 2 ^ 24) :
    ((w.setChunkRaw x z data).map (fun w' => w'.header.chunks[ChunkInfo.getIndex x z]?))
      = some (some { offset := w.currentSector + 2,
                     sectors := (data.length + 4 + 4095) / 4096 % 256 })
    ∧ (data.length + 4 ≤ 255 * 4096 →
        (data.length + 4 + 4095) / 4096 % 256 = (data.length + 4 + 4095) / 4096) := by
  have hidx : ChunkInfo.getIndex x z < 1024 := getIndex_lt x z hx0 hx hz0 hz
  constructor
  · rw [setChunkRaw_spec w x z data hne hidx hex]
    simp only [Option.map_some']
    rw [List.getElem?_set_self (by omega)]
    rw [Nat.mod_eq_of_lt hcur]
  · intro hle
    have : (data.length + 4 + 4095) / 4096 ≤ 255 := by omega
    omega

/-- C8 witness: the amended statement at a 1-byte payload in a fresh writer. -/
theorem claim_C8_sector_count_witness :
    RegionWriter.new.header.chunks.length = 1024
    ∧ RegionWriter.new.currentSector + 2 < 2 ^ 32
    ∧ ((RegionWriter.new.setChunkRaw 0 0 [3]).map
        (fun w' => w'.header.chunks[ChunkInfo.getIndex 0 0]?))
      = some (some { offset := 2, sectors := 1 }) :=
  ⟨by rw [show RegionWriter.new.header.chunks
        = List.replicate 1024 { offset := 0, sectors := 0 } from rfl, List.length_replicate],
   by decide,
   (claim_C8_sector_count RegionWriter.new 0 0 [3] (by decide) (by decide) (by decide)
      (by decide)
      (by rw [show RegionWriter.new.header.chunks
            = List.replicate 1024 { offset := 0, sectors := 0 } from rfl, List.length_replicate])
      (by decide) (by decide) (by decide)).1⟩

/-- Symbolic evaluation of `RegionWriter::set_chunk_timestamp` on the
non-panicking path. -/
theorem setChunkTimestamp_spec (w : RegionWriter) (x z : Int) (ts : Nat)
    (hidx : ChunkInfo.getIndex x z < 1024) :
    w.setChunkTimestamp x z ts = some { data := w.data, currentSector := w.currentSector, header := { chunks := w.header.chunks, timestamps := w.header.timestamps.set (ChunkInfo.getIndex x z) (ts % 2 ^ 32) } } := by
  simp only [RegionWriter.setChunkTimestamp]
  rw [if_neg (by omega : ¬ 1024 ≤ ChunkInfo.getIndex x z)]


/-- The writer state holding exactly one chunk (raw payload `raw`, timestamp
`ts`) at slot `(x, z)` — the result of `set_chunk_raw` then
`set_chunk_timestamp` on a fresh writer. -/
def oneChunkWriter (x z : Int) (raw : List Nat) (ts : Nat) : RegionWriter :=
  { data := natToBytesBE 4 ((raw.length - 1) % 2 ^ 32) ++ raw ++ List.replicate ((raw.length + 4 + 4095) / 4096 * 4096 - (raw.length + 4)) 0,
    currentSector := (raw.length + 4 + 4095) / 4096,
    header := { chunks := (List.replicate 1024 (ChunkInfo.mk 0 0)).set (ChunkInfo.getIndex x z) (ChunkInfo.mk 2 ((raw.length + 4 + 4095) / 4096 % 256)),
                timestamps := (List.replicate 1024 0).set (ChunkInfo.getIndex x z) (ts % 2 ^ 32) } }

/-- Evaluation of `Region::get_chunk_raw` once the header entry is known and
non-empty. -/
theorem getChunkRaw_eval (r : Region) (x z : Int) (off ns : Nat)
    (hentry : r.header.chunks[ChunkInfo.getIndex x z]? = some (ChunkInfo.mk off ns))
    (hoff : off ≠ 0) (hns : ns ≠ 0) :
    r.getChunkRaw x z
      = (readBytesBE 4 0 (r.file.drop (off * 4096))).bind (fun lr =>
          if lr.2.length < lr.1 + 1 then none else some (lr.2.take (lr.1 + 1))) := by
  unfold Region.getChunkRaw
  rw [hentry, Option.some_bind]
  simp only []
  rw [if_neg (show ¬((ChunkInfo.mk off ns).offset = 0 ∨ (ChunkInfo.mk off ns).sectors = 0) from
    fun h => by rcases h with h | h; exact hoff h; exact hns h)]

/-- `Region::get_chunk_raw` is `None` on a header entry `(0, 0)`. -/
theorem getChunkRaw_none (r : Region) (x z : Int)
    (hentry : r.header.chunks[ChunkInfo.getIndex x z]? = some (ChunkInfo.mk 0 0)) :
    r.getChunkRaw x z = none := by
  unfold Region.getChunkRaw
  rw [hentry, Option.some_bind]
  simp

/-- C1: writing a present chunk's raw payload and timestamp into a fresh
`RegionWriter`, serializing, and re-loading yields a region that returns
exactly the original raw bytes and timestamp at that slot, with every other
slot absent.  The hypotheses are the invariants of any payload obtained from
`Region::get_chunk_raw` on a region obeying the format's 255-sector/u8
bound: a non-empty payload (`get_chunk_raw` returns `length + 1 ≥ 1` bytes)
whose padded size does not exceed 255 sectors, and a u32 timestamp. -/
theorem claim_C1_region_roundtrip (x z : Int)
    (hx0 : 0 ≤ x) (hx : x < 32) (hz0 : 0 ≤ z) (hz : z < 32)
    (raw : List Nat) (hne : raw.length ≠ 0) (hsz : raw.length + 4 ≤ 255 * 4096)
    (ts : Nat) (hts : ts < 2 ^ 32) :
    (RegionWriter.new.setChunkRaw x z raw).bind
        (fun w1 => w1.setChunkTimestamp x z ts) = some (oneChunkWriter x z raw ts)
    ∧ (Region.load (oneChunkWriter x z raw ts).serialize).getChunkRaw x z = some raw
    ∧ (Region.load (oneChunkWriter x z raw ts).serialize).getTimestamp x z = some ts
    ∧ (∀ x' z' : Int, 0 ≤ x' → x' < 32 → 0 ≤ z' → z' < 32 →
        ¬(x' = x ∧ z' = z) →
        (Region.load (oneChunkWriter x z raw ts).serialize).getChunkRaw x' z' = none) := by
  have hidxlt : ChunkInfo.getIndex x z < 1024 := getIndex_lt x z hx0 hx hz0 hz
  have hns1 : 1 ≤ (raw.length + 4 + 4095) / 4096 := by omega
  have hns255 : (raw.length + 4 + 4095) / 4096 ≤ 255 := by omega
  have hnsmod : (raw.length + 4 + 4095) / 4096 % 256 = (raw.length + 4 + 4095) / 4096 :=
    Nat.mod_eq_of_lt (by omega)
  have hWc : (oneChunkWriter x z raw ts).header.chunks.length = 1024 := by
    show ((List.replicate 1024 (ChunkInfo.mk 0 0)).set (ChunkInfo.getIndex x z)
      (ChunkInfo.mk 2 ((raw.length + 4 + 4095) / 4096 % 256))).length = 1024
    rw [List.length_set, List.length_replicate]
  have hWt : (oneChunkWriter x z raw ts).header.timestamps.length = 1024 := by
    show ((List.replicate 1024 0).set (ChunkInfo.getIndex x z) (ts % 2 ^ 32)).length = 1024
    rw [List.length_set, List.length_replicate]
  refine ⟨?_, ?_, ?_, ?_⟩
  · rw [setChunkRaw_spec RegionWriter.new x z raw hne hidxlt (by omega), Option.some_bind,
      setChunkTimestamp_spec _ x z ts hidxlt]
    norm_num [oneChunkWriter, RegionWriter.new, RegionHeader.new,
      RegionWriter.mk.injEq, RegionHeader.mk.injEq, ChunkInfo.mk.injEq]
  · have hentry := load_serialize_chunk_entry (oneChunkWriter x z raw ts)
      (ChunkInfo.getIndex x z) hWc hWt hidxlt
    have hidxval : (oneChunkWriter x z raw ts).header.chunks[ChunkInfo.getIndex x z]?
        = some (ChunkInfo.mk 2 ((raw.length + 4 + 4095) / 4096 % 256)) := by
      show ((List.replicate 1024 (ChunkInfo.mk 0 0)).set (ChunkInfo.getIndex x z)
        (ChunkInfo.mk 2 ((raw.length + 4 + 4095) / 4096 % 256)))[ChunkInfo.getIndex x z]? = _
      rw [List.getElem?_set_self (by rw [List.length_replicate]; omega)]
    rw [hidxval, Option.map_some'] at hentry
    have h224 : (2 : Nat) % 2 ^ 24 = 2 := by norm_num
    rw [h224, hnsmod] at hentry
    rw [getChunkRaw_eval _ x z 2 ((raw.length + 4 + 4095) / 4096) hentry
      (by omega) (by omega)]
    rw [show (Region.load (oneChunkWriter x z raw ts).serialize).file
      = (oneChunkWriter x z raw ts).serialize from rfl]
    rw [serialize_header_split]
    have h8192 : (concatMap (fun c => natToBytesBE 3 c.offset ++ [c.sectors])
          (oneChunkWriter x z raw ts).header.chunks
        ++ concatMap (fun t => natToBytesBE 4 t)
          (oneChunkWriter x z raw ts).header.timestamps).length = 2 * 4096 := by
      rw [List.length_append, serialize_CB_length _ hWc, serialize_TB_length _ hWt]
    rw [List.drop_left' h8192]
    rw [show (oneChunkWriter x z raw ts).data
      = natToBytesBE 4 ((raw.length - 1) % 2 ^ 32)
        ++ (raw ++ List.replicate ((raw.length + 4 + 4095) / 4096 * 4096 - (raw.length + 4)) 0)
      from rfl]
    rw [readBytesBE_append]
    have hLval : 0 * 256 ^ 4 + ((raw.length - 1) % 2 ^ 32) % 256 ^ 4 = raw.length - 1 := by
      have h2324 : (256 : Nat) ^ 4 = 2 ^ 32 := by norm_num
      rw [h2324]
      omega
    rw [hLval, Option.some_bind]
    simp only []
    rw [if_neg (show ¬(((raw ++ List.replicate ((raw.length + 4 + 4095) / 4096 * 4096 - (raw.length + 4)) 0) : List Nat).length < raw.length - 1 + 1) by
      rw [List.length_append, List.length_replicate]
      omega)]
    have htake : raw.length = raw.length - 1 + 1 := by omega
    rw [List.take_left' htake]
  · have hT := load_serialize_timestamp_entry (oneChunkWriter x z raw ts)
      (ChunkInfo.getIndex x z) hWc hWt hidxlt
    have hTidx : (oneChunkWriter x z raw ts).header.timestamps[ChunkInfo.getIndex x z]?
        = some (ts % 2 ^ 32) := by
      show ((List.replicate 1024 0).set (ChunkInfo.getIndex x z) (ts % 2 ^ 32))[ChunkInfo.getIndex x z]? = _
      rw [List.getElem?_set_self (by rw [List.length_replicate]; omega)]
    rw [hTidx, Option.map_some'] at hT
    unfold Region.getTimestamp
    rw [hT]
    have : ts % 2 ^ 32 % 2 ^ 32 = ts := by omega
    rw [this]
  · intro x' z' hx'0 hx' hz'0 hz' hneq
    have hidx'lt : ChunkInfo.getIndex x' z' < 1024 := getIndex_lt x' z' hx'0 hx' hz'0 hz'
    have hidxne : ChunkInfo.getIndex x z ≠ ChunkInfo.getIndex x' z' := by
      rw [getIndex_eq x z hx0 hx hz0 hz, getIndex_eq x' z' hx'0 hx' hz'0 hz']
      omega
    have hentry' := load_serialize_chunk_entry (oneChunkWriter x z raw ts)
      (ChunkInfo.getIndex x' z') hWc hWt hidx'lt
    have hval' : (oneChunkWriter x z raw ts).header.chunks[ChunkInfo.getIndex x' z']?
        = some (ChunkInfo.mk 0 0) := by
      show ((List.replicate 1024 (ChunkInfo.mk 0 0)).set (ChunkInfo.getIndex x z)
        (ChunkInfo.mk 2 ((raw.length + 4 + 4095) / 4096 % 256)))[ChunkInfo.getIndex x' z']? = _
      rw [List.getElem?_set_ne hidxne]
      exact List.getElem?_replicate_of_lt hidx'lt
    rw [hval', Option.map_some'] at hentry'
    have h0 : (0 : Nat) % 2 ^ 24 = 0 := by norm_num
    rw [h0] at hentry'
    exact getChunkRaw_none _ x' z' hentry'

/-- C1 witness: round trip of the 2-byte payload `[2, 9]` with timestamp 7 at
slot `(1, 3)`. -/
theorem claim_C1_region_roundtrip_witness :
    ([2, 9] : List Nat).length ≠ 0 ∧ ([2, 9] : List Nat).length + 4 ≤ 255 * 4096
    ∧ (7 : Nat) < 2 ^ 32
    ∧ (RegionWriter.new.setChunkRaw 1 3 [2, 9]).bind
        (fun w1 => w1.setChunkTimestamp 1 3 7) = some (oneChunkWriter 1 3 [2, 9] 7)
    ∧ (Region.load (oneChunkWriter 1 3 [2, 9] 7).serialize).getChunkRaw 1 3 = some [2, 9]
    ∧ (Region.load (oneChunkWriter 1 3 [2, 9] 7).serialize).getTimestamp 1 3 = some 7 :=
  ⟨by decide, by decide, by decide,
    (claim_C1_region_roundtrip 1 3 (by decide) (by decide) (by decide) (by decide)
      [2, 9] (by decide) (by decide) 7 (by decide)).1,
    (claim_C1_region_roundtrip 1 3 (by decide) (by decide) (by decide) (by decide)
      [2, 9] (by decide) (by decide) 7 (by decide)).2.1,
    (claim_C1_region_roundtrip 1 3 (by decide) (by decide) (by decide) (by decide)
      [2, 9] (by decide) (by decide) 7 (by decide)).2.2.1⟩

/-! ### Varint codec — src/server/utils.rs

`write_varint` (lines 20-42) computes, over `u64` values: the sign-extended
`x = value as u64`, a byte-spread `stage1` of the low 35 significant bits,
the byte count from `leading_zeros`, a continuation-bit mask, and the first
`bytes_needed` little-endian bytes of the merged word.  Each local of the
Rust function is a named definition here. -/

/-- `let x = value as u64` — sign extension of the `i32` argument. -/
def varintX (value : Int) : Nat := (value % (2 : Int) ^ 64).toNat

/-- `stage1` — the five mask-and-shift terms of lines 22-26. -/
def varintStage1 (x : Nat) : Nat :=
  (x &&& 0x000000000000007f)
    ||| ((x &&& 0x0000000000003f80) <<< 1)
    ||| ((x &&& 0x00000000001fc000) <<< 2)
    ||| ((x &&& 0x000000000fe00000) <<< 3)
    ||| ((x &&& 0x00000000f0000000) <<< 4)

/-- `bytes_needed = 8 - ((stage1.leading_zeros() - 1) >> 3)`; `leading_zeros`
of a `u64` is `64 - Nat.size`. -/
def varintBytesNeeded (value : Int) : Nat :=
  8 - ((64 - Nat.size (varintStage1 (varintX value)) - 1) >>> 3)

/-- `msbmask = 0xffffffffffffffff >> (((8 - bytes_needed + 1) << 3) - 1)`. -/
def varintMsbmask (value : Int) : Nat :=
  (0xffffffffffffffff : Nat) >>> (((8 - varintBytesNeeded value + 1) <<< 3) - 1)

/-- `merged = stage1 | (msbs & msbmask)` with `msbs = 0x8080808080808080`. -/
def varintMerged (value : Int) : Nat :=
  varintStage1 (varintX value) ||| (0x8080808080808080 &&& varintMsbmask value)

/-- `write_varint` — the first `bytes_needed` bytes of
`merged.to_le_bytes()`. -/
def writeVarint (value : Int) : List Nat :=
  ((List.range 8).map (fun j => varintMerged value >>> (8 * j) &&& 255)).take
    (varintBytesNeeded value)

/-- The loop of `read_varint` (src/server/utils.rs lines 7-18): up to five
iterations, each reading one byte (`none` models the `get_u8` panic on an
exhausted buffer), or-ing `(byte & 0x7f) << (7 * i)` into the 32-bit
accumulator (i32 shifts discard bits past 31, hence `% 2^32`), and stopping
on a clear continuation bit.  After five iterations the value is returned as
is (the `FIXME` case). -/
def readVarintAux : Nat → Nat → Nat → List Nat → Option (Nat × List Nat)
  | 0, _, val, l => some (val, l)
  | _ + 1, _, _, [] => none
  | fuel + 1, i, val, b :: t =>
      let val' := val ||| (((b &&& 0x7f) <<< (7 * i)) % 2 ^ 32)
      if b &&& 0x80 = 0 then some (val', t)
      else readVarintAux fuel (i + 1) val' t

/-- Reinterpret a 32-bit pattern as a signed `i32`. -/
def toInt32 (pattern : Nat) : Int :=
  if pattern < 2 ^ 31 then (pattern : Int) else (pattern : Int) - 2 ^ 32

/-- `read_varint`, returning the decoded value and the unconsumed bytes. -/
def readVarint (l : List Nat) : Option (Int × List Nat) :=
  (readVarintAux 5 0 0 l).map (fun r => (toInt32 r.1, r.2))

/-! #### Bit-manipulation lemmas -/

theorem and_mod_two_pow (x m w : Nat) (hm : m < 2 ^ w) : x &&& m = (x % 2 ^ w) &&& m := by
  apply Nat.eq_of_testBit_eq
  intro i
  rw [Nat.testBit_and, Nat.testBit_and, Nat.testBit_mod_two_pow]
  by_cases hi : i < w
  · simp [hi]
  · have hmi : m < 2 ^ i :=
      lt_of_lt_of_le hm (Nat.pow_le_pow_right (by norm_num) (by omega))
    rw [Nat.testBit_lt_two_pow hmi]
    simp [hi]

theorem and_shifted_mask (u j k : Nat) :
    u &&& ((2 ^ k - 1) <<< j) = ((u >>> j) % 2 ^ k) <<< j := by
  apply Nat.eq_of_testBit_eq
  intro i
  rw [Nat.testBit_and, Nat.testBit_shiftLeft, Nat.testBit_shiftLeft,
    Nat.testBit_mod_two_pow, Nat.testBit_two_pow_sub_one, Nat.testBit_shiftRight]
  by_cases hj : j ≤ i
  · have hji : j + (i - j) = i := by omega
    simp only [hj, decide_True, Bool.true_and, hji]
    by_cases hk : i - j < k <;> simp [hk, Bool.and_comm]
  · simp [hj]

theorem or_add_disjoint (a b i : Nat) (ha : a < 2 ^ i) : a ||| b * 2 ^ i = a + b * 2 ^ i := by
  calc a ||| b * 2 ^ i = b * 2 ^ i ||| a := Nat.or_comm a (b * 2 ^ i)
    _ = 2 ^ i * b ||| a := by rw [Nat.mul_comm]
    _ = 2 ^ i * b + a := (Nat.mul_add_lt_is_or ha b).symm
    _ = a + b * 2 ^ i := by ring

theorem or_shiftRight (a b k : Nat) : (a ||| b) >>> k = a >>> k ||| b >>> k := by
  apply Nat.eq_of_testBit_eq
  intro i
  rw [Nat.testBit_shiftRight, Nat.testBit_or, Nat.testBit_or,
    Nat.testBit_shiftRight, Nat.testBit_shiftRight]

theorem and127_eq (b : Nat) : b &&& 127 = b % 128 := by
  rw [show (127 : Nat) = 2 ^ 7 - 1 by norm_num, Nat.and_pow_two_sub_one_eq_mod]

theorem and128_eq (b : Nat) : b &&& 128 = (b / 128 % 2) * 128 := by
  have hmask : (128 : Nat) = (2 ^ 1 - 1) <<< 7 := by
    rw [Nat.shiftLeft_eq]
    norm_num
  nth_rewrite 1 [hmask]
  rw [and_shifted_mask, Nat.shiftLeft_eq, Nat.shiftRight_eq_div_pow]
  norm_num

theorem or128_eq (b : Nat) (hb : b < 128) : b ||| 128 = b + 128 := by
  have h := or_add_disjoint b 1 7 (by omega)
  norm_num at h
  exact h

theorem and255_eq (b : Nat) : b &&& 255 = b % 256 := by
  rw [show (255 : Nat) = 2 ^ 8 - 1 by norm_num, Nat.and_pow_two_sub_one_eq_mod]

theorem byte_of_or (S M k : Nat) :
    (S ||| M) >>> k &&& 255 = (S >>> k &&& 255) ||| (M >>> k &&& 255) := by
  rw [or_shiftRight, Nat.and_distrib_right]

theorem varintStage1_mod (x : Nat) : varintStage1 x = varintStage1 (x % 2 ^ 32) := by
  unfold varintStage1
  rw [and_mod_two_pow x 0x7f 32 (by norm_num),
    and_mod_two_pow x 0x3f80 32 (by norm_num),
    and_mod_two_pow x 0x1fc000 32 (by norm_num),
    and_mod_two_pow x 0xfe00000 32 (by norm_num),
    and_mod_two_pow x 0xf0000000 32 (by norm_num)]

theorem varintStage1_eq (u : Nat) (hu : u < 2 ^ 32) :
    varintStage1 u
      = u % 2 ^ 7 + u / 2 ^ 7 % 2 ^ 7 * 2 ^ 8 + u / 2 ^ 14 % 2 ^ 7 * 2 ^ 16
        + u / 2 ^ 21 % 2 ^ 7 * 2 ^ 24 + u / 2 ^ 28 * 2 ^ 32 := by
  unfold varintStage1
  have m0 : u &&& 0x7f = u % 2 ^ 7 := by
    rw [show (0x7f : Nat) = 2 ^ 7 - 1 by norm_num, Nat.and_pow_two_sub_one_eq_mod]
  have m1 : (u &&& 0x3f80) <<< 1 = u / 2 ^ 7 % 2 ^ 7 * 2 ^ 8 := by
    rw [show (0x3f80 : Nat) = (2 ^ 7 - 1) <<< 7 by rw [Nat.shiftLeft_eq]; norm_num]
    rw [and_shifted_mask, Nat.shiftLeft_eq, Nat.shiftLeft_eq, Nat.shiftRight_eq_div_pow]
    ring
  have m2 : (u &&& 0x1fc000) <<< 2 = u / 2 ^ 14 % 2 ^ 7 * 2 ^ 16 := by
    rw [show (0x1fc000 : Nat) = (2 ^ 7 - 1) <<< 14 by rw [Nat.shiftLeft_eq]; norm_num]
    rw [and_shifted_mask, Nat.shiftLeft_eq, Nat.shiftLeft_eq, Nat.shiftRight_eq_div_pow]
    ring
  have m3 : (u &&& 0xfe00000) <<< 3 = u / 2 ^ 21 % 2 ^ 7 * 2 ^ 24 := by
    rw [show (0xfe00000 : Nat) = (2 ^ 7 - 1) <<< 21 by rw [Nat.shiftLeft_eq]; norm_num]
    rw [and_shifted_mask, Nat.shiftLeft_eq, Nat.shiftLeft_eq, Nat.shiftRight_eq_div_pow]
    ring
  have m4 : (u &&& 0xf0000000) <<< 4 = u / 2 ^ 28 * 2 ^ 32 := by
    rw [show (0xf0000000 : Nat) = (2 ^ 4 - 1) <<< 28 by rw [Nat.shiftLeft_eq]; norm_num]
    rw [and_shifted_mask, Nat.shiftLeft_eq, Nat.shiftLeft_eq, Nat.shiftRight_eq_div_pow]
    have hsm : u / 2 ^ 28 % 2 ^ 4 = u / 2 ^ 28 := Nat.mod_eq_of_lt (by omega)
    rw [hsm]
    ring
  rw [m0, m1, m2, m3, m4]
  rw [or_add_disjoint (u % 2 ^ 7) (u / 2 ^ 7 % 2 ^ 7) 8 (by omega)]
  rw [or_add_disjoint (u % 2 ^ 7 + u / 2 ^ 7 % 2 ^ 7 * 2 ^ 8) (u / 2 ^ 14 % 2 ^ 7) 16 (by omega)]
  rw [or_add_disjoint (u % 2 ^ 7 + u / 2 ^ 7 % 2 ^ 7 * 2 ^ 8 + u / 2 ^ 14 % 2 ^ 7 * 2 ^ 16)
    (u / 2 ^ 21 % 2 ^ 7) 24 (by omega)]
  rw [or_add_disjoint
    (u % 2 ^ 7 + u / 2 ^ 7 % 2 ^ 7 * 2 ^ 8 + u / 2 ^ 14 % 2 ^ 7 * 2 ^ 16 + u / 2 ^ 21 % 2 ^ 7 * 2 ^ 24)
    (u / 2 ^ 28) 32 (by omega)]

theorem varintBytesNeeded_eq (v : Int) (n : Nat) (hn1 : 1 ≤ n) (hn8 : n ≤ 8)
    (hlo : 2 ^ (8 * (n - 1)) ≤ varintStage1 (varintX v) ∨ n = 1)
    (hhi : varintStage1 (varintX v) < 2 ^ (8 * (n - 1) + 7)) :
    varintBytesNeeded v = n := by
  unfold varintBytesNeeded
  rw [Nat.shiftRight_eq_div_pow]
  have hs2 : Nat.size (varintStage1 (varintX v)) ≤ 8 * (n - 1) + 7 := Nat.size_le.mpr hhi
  rcases hlo with hlo | hn1e
  · have hs1 : 8 * (n - 1) < Nat.size (varintStage1 (varintX v)) := Nat.lt_size.mpr hlo
    have h8 : (2 : Nat) ^ 3 = 8 := by norm_num
    rw [h8]
    omega
  · subst hn1e
    have h8 : (2 : Nat) ^ 3 = 8 := by norm_num
    rw [h8]
    omega

theorem writeVarint_take (v : Int) :
    writeVarint v
      = [varintMerged v >>> (8 * 0) &&& 255, varintMerged v >>> (8 * 1) &&& 255,
         varintMerged v >>> (8 * 2) &&& 255, varintMerged v >>> (8 * 3) &&& 255,
         varintMerged v >>> (8 * 4) &&& 255, varintMerged v >>> (8 * 5) &&& 255,
         varintMerged v >>> (8 * 6) &&& 255,
         varintMerged v >>> (8 * 7) &&& 255].take (varintBytesNeeded v) := rfl

theorem writeVarint_case1 (v : Int) (u : Nat) (hu : varintX v % 2 ^ 32 = u)
    (hhi : u < 2 ^ 7) :
    writeVarint v = [u] := by
  have hS : varintStage1 (varintX v) = u := by
    rw [varintStage1_mod, hu, varintStage1_eq u (by omega)]
    omega
  have hbn : varintBytesNeeded v = 1 :=
    varintBytesNeeded_eq v 1 (by omega) (by omega) (Or.inr rfl) (by rw [hS]; omega)
  have hmask : varintMsbmask v = 2 ^ 1 - 1 := by
    unfold varintMsbmask
    rw [hbn, Nat.shiftLeft_eq, Nat.shiftRight_eq_div_pow]
    norm_num
  have hM : (0x8080808080808080 : Nat) &&& varintMsbmask v = 0 := by
    rw [hmask, Nat.and_pow_two_sub_one_eq_mod]
  have hmerged : varintMerged v = u := by
    unfold varintMerged
    rw [hS, hM, Nat.or_zero]
  rw [writeVarint_take, hbn]
  simp only [List.take_succ_cons, List.take_zero]
  rw [hmerged]
  norm_num [and255_eq]
  omega

theorem writeVarint_case2 (v : Int) (u : Nat) (hu : varintX v % 2 ^ 32 = u)
    (hlo : 2 ^ 7 ≤ u) (hhi : u < 2 ^ 14) :
    writeVarint v = [u % 2 ^ 7 + 128, u / 2 ^ 7] := by
  have hS : varintStage1 (varintX v) = u % 2 ^ 7 + u / 2 ^ 7 * 2 ^ 8 := by
    rw [varintStage1_mod, hu, varintStage1_eq u (by omega)]
    omega
  have hbn : varintBytesNeeded v = 2 :=
    varintBytesNeeded_eq v 2 (by omega) (by omega) (Or.inl (by rw [hS]; omega))
      (by rw [hS]; omega)
  have hmask : varintMsbmask v = 2 ^ 9 - 1 := by
    unfold varintMsbmask
    rw [hbn, Nat.shiftLeft_eq, Nat.shiftRight_eq_div_pow]
    norm_num
  have hM : (0x8080808080808080 : Nat) &&& varintMsbmask v = 128 := by
    rw [hmask, Nat.and_pow_two_sub_one_eq_mod]
  have hmerged : varintMerged v = (u % 2 ^ 7 + u / 2 ^ 7 * 2 ^ 8) ||| 128 := by
    unfold varintMerged
    rw [hS, hM]
  have hb0 : varintMerged v >>> (8 * 0) &&& 255 = u % 2 ^ 7 + 128 := by
    rw [hmerged, byte_of_or]
    rw [and255_eq, and255_eq, Nat.shiftRight_eq_div_pow, Nat.shiftRight_eq_div_pow]
    norm_num
    rw [show u % 128 % 256 = u % 128 from by omega, or128_eq _ (by omega)]
  have hb1 : varintMerged v >>> (8 * 1) &&& 255 = u / 2 ^ 7 := by
    rw [hmerged, byte_of_or]
    rw [and255_eq, and255_eq, Nat.shiftRight_eq_div_pow, Nat.shiftRight_eq_div_pow]
    norm_num
    omega
  rw [writeVarint_take, hbn]
  simp only [List.take_succ_cons, List.take_zero]
  rw [hb0, hb1]

theorem writeVarint_case3 (v : Int) (u : Nat) (hu : varintX v % 2 ^ 32 = u)
    (hlo : 2 ^ 14 ≤ u) (hhi : u < 2 ^ 21) :
    writeVarint v = [u % 2 ^ 7 + 128, u / 2 ^ 7 % 2 ^ 7 + 128, u / 2 ^ 14] := by
  have hS : varintStage1 (varintX v)
      = u % 2 ^ 7 + u / 2 ^ 7 % 2 ^ 7 * 2 ^ 8 + u / 2 ^ 14 * 2 ^ 16 := by
    rw [varintStage1_mod, hu, varintStage1_eq u (by omega)]
    omega
  have hbn : varintBytesNeeded v = 3 :=
    varintBytesNeeded_eq v 3 (by omega) (by omega) (Or.inl (by rw [hS]; omega))
      (by rw [hS]; omega)
  have hmask : varintMsbmask v = 2 ^ 17 - 1 := by
    unfold varintMsbmask
    rw [hbn, Nat.shiftLeft_eq, Nat.shiftRight_eq_div_pow]
    norm_num
  have hM : (0x8080808080808080 : Nat) &&& varintMsbmask v = 0x8080 := by
    rw [hmask, Nat.and_pow_two_sub_one_eq_mod]
  have hmerged : varintMerged v
      = (u % 2 ^ 7 + u / 2 ^ 7 % 2 ^ 7 * 2 ^ 8 + u / 2 ^ 14 * 2 ^ 16) ||| 0x8080 := by
    unfold varintMerged
    rw [hS, hM]
  have hb0 : varintMerged v >>> (8 * 0) &&& 255 = u % 2 ^ 7 + 128 := by
    rw [hmerged, byte_of_or, and255_eq, and255_eq, Nat.shiftRight_eq_div_pow,
      Nat.shiftRight_eq_div_pow]
    norm_num
    rw [or128_eq _ (by omega)]
    omega
  have hb1 : varintMerged v >>> (8 * 1) &&& 255 = u / 2 ^ 7 % 2 ^ 7 + 128 := by
    rw [hmerged, byte_of_or, and255_eq, and255_eq, Nat.shiftRight_eq_div_pow,
      Nat.shiftRight_eq_div_pow]
    norm_num
    rw [or128_eq _ (by omega)]
    omega
  have hb2 : varintMerged v >>> (8 * 2) &&& 255 = u / 2 ^ 14 := by
    rw [hmerged, byte_of_or, and255_eq, and255_eq, Nat.shiftRight_eq_div_pow,
      Nat.shiftRight_eq_div_pow]
    norm_num
    omega
  rw [writeVarint_take, hbn]
  simp only [List.take_succ_cons, List.take_zero]
  rw [hb0, hb1, hb2]

theorem writeVarint_case4 (v : Int) (u : Nat) (hu : varintX v % 2 ^ 32 = u)
    (hlo : 2 ^ 21 ≤ u) (hhi : u < 2 ^ 28) :
    writeVarint v
      = [u % 2 ^ 7 + 128, u / 2 ^ 7 % 2 ^ 7 + 128, u / 2 ^ 14 % 2 ^ 7 + 128, u / 2 ^ 21] := by
  have hS : varintStage1 (varintX v)
      = u % 2 ^ 7 + u / 2 ^ 7 % 2 ^ 7 * 2 ^ 8 + u / 2 ^ 14 % 2 ^ 7 * 2 ^ 16
        + u / 2 ^ 21 * 2 ^ 24 := by
    rw [varintStage1_mod, hu, varintStage1_eq u (by omega)]
    omega
  have hbn : varintBytesNeeded v = 4 :=
    varintBytesNeeded_eq v 4 (by omega) (by omega) (Or.inl (by rw [hS]; omega))
      (by rw [hS]; omega)
  have hmask : varintMsbmask v = 2 ^ 25 - 1 := by
    unfold varintMsbmask
    rw [hbn, Nat.shiftLeft_eq, Nat.shiftRight_eq_div_pow]
    norm_num
  have hM : (0x8080808080808080 : Nat) &&& varintMsbmask v = 0x808080 := by
    rw [hmask, Nat.and_pow_two_sub_one_eq_mod]
  have hmerged : varintMerged v
      = (u % 2 ^ 7 + u / 2 ^ 7 % 2 ^ 7 * 2 ^ 8 + u / 2 ^ 14 % 2 ^ 7 * 2 ^ 16
          + u / 2 ^ 21 * 2 ^ 24) ||| 0x808080 := by
    unfold varintMerged
    rw [hS, hM]
  have hb0 : varintMerged v >>> (8 * 0) &&& 255 = u % 2 ^ 7 + 128 := by
    rw [hmerged, byte_of_or, and255_eq, and255_eq, Nat.shiftRight_eq_div_pow,
      Nat.shiftRight_eq_div_pow]
    norm_num
    rw [or128_eq _ (by omega)]
    omega
  have hb1 : varintMerged v >>> (8 * 1) &&& 255 = u / 2 ^ 7 % 2 ^ 7 + 128 := by
    rw [hmerged, byte_of_or, and255_eq, and255_eq, Nat.shiftRight_eq_div_pow,
      Nat.shiftRight_eq_div_pow]
    norm_num
    rw [or128_eq _ (by omega)]
    omega
  have hb2 : varintMerged v >>> (8 * 2) &&& 255 = u / 2 ^ 14 % 2 ^ 7 + 128 := by
    rw [hmerged, byte_of_or, and255_eq, and255_eq, Nat.shiftRight_eq_div_pow,
      Nat.shiftRight_eq_div_pow]
    norm_num
    rw [or128_eq _ (by omega)]
    omega
  have hb3 : varintMerged v >>> (8 * 3) &&& 255 = u / 2 ^ 21 := by
    rw [hmerged, byte_of_or, and255_eq, and255_eq, Nat.shiftRight_eq_div_pow,
      Nat.shiftRight_eq_div_pow]
    norm_num
    have h1 : u % 128 + u / 128 % 128 * 256 + u / 16384 % 128 * 65536 < 16777216 := by omega
    rw [Nat.add_mul_div_right _ _ (show (0:Nat) < 16777216 by norm_num), Nat.div_eq_of_lt h1,
      Nat.zero_add, Nat.mod_eq_of_lt (show u / 2097152 < 256 by omega)]
  rw [writeVarint_take, hbn]
  simp only [List.take_succ_cons, List.take_zero]
  rw [hb0, hb1, hb2, hb3]

theorem writeVarint_case5 (v : Int) (u : Nat) (hu : varintX v % 2 ^ 32 = u)
    (hlo : 2 ^ 28 ≤ u) (hhi : u < 2 ^ 32) :
    writeVarint v
      = [u % 2 ^ 7 + 128, u / 2 ^ 7 % 2 ^ 7 + 128, u / 2 ^ 14 % 2 ^ 7 + 128,
         u / 2 ^ 21 % 2 ^ 7 + 128, u / 2 ^ 28] := by
  have hS : varintStage1 (varintX v)
      = u % 2 ^ 7 + u / 2 ^ 7 % 2 ^ 7 * 2 ^ 8 + u / 2 ^ 14 % 2 ^ 7 * 2 ^ 16
        + u / 2 ^ 21 % 2 ^ 7 * 2 ^ 24 + u / 2 ^ 28 * 2 ^ 32 := by
    rw [varintStage1_mod, hu, varintStage1_eq u (by omega)]
  have hbn : varintBytesNeeded v = 5 :=
    varintBytesNeeded_eq v 5 (by omega) (by omega) (Or.inl (by rw [hS]; omega))
      (by rw [hS]; omega)
  have hmask : varintMsbmask v = 2 ^ 33 - 1 := by
    unfold varintMsbmask
    rw [hbn, Nat.shiftLeft_eq, Nat.shiftRight_eq_div_pow]
    norm_num
  have hM : (0x8080808080808080 : Nat) &&& varintMsbmask v = 0x80808080 := by
    rw [hmask, Nat.and_pow_two_sub_one_eq_mod]
  have hmerged : varintMerged v
      = (u % 2 ^ 7 + u / 2 ^ 7 % 2 ^ 7 * 2 ^ 8 + u / 2 ^ 14 % 2 ^ 7 * 2 ^ 16
          + u / 2 ^ 21 % 2 ^ 7 * 2 ^ 24 + u / 2 ^ 28 * 2 ^ 32) ||| 0x80808080 := by
    unfold varintMerged
    rw [hS, hM]
  have hb0 : varintMerged v >>> (8 * 0) &&& 255 = u % 2 ^ 7 + 128 := by
    rw [hmerged, byte_of_or, and255_eq, and255_eq, Nat.shiftRight_eq_div_pow,
      Nat.shiftRight_eq_div_pow]
    norm_num
    rw [or128_eq _ (by omega)]
    omega
  have hb1 : varintMerged v >>> (8 * 1) &&& 255 = u / 2 ^ 7 % 2 ^ 7 + 128 := by
    rw [hmerged, byte_of_or, and255_eq, and255_eq, Nat.shiftRight_eq_div_pow,
      Nat.shiftRight_eq_div_pow]
    norm_num
    rw [or128_eq _ (by omega)]
    omega
  have hb2 : varintMerged v >>> (8 * 2) &&& 255 = u / 2 ^ 14 % 2 ^ 7 + 128 := by
    rw [hmerged, byte_of_or, and255_eq, and255_eq, Nat.shiftRight_eq_div_pow,
      Nat.shiftRight_eq_div_pow]
    norm_num
    have h1 : u % 128 + u / 128 % 128 * 256 < 65536 := by omega
    have h2 : (u % 128 + u / 128 % 128 * 256 + u / 16384 % 128 * 65536
        + u / 2097152 % 128 * 16777216 + u / 268435456 * 4294967296) / 65536 % 256
        = u / 16384 % 128 := by
      rw [show u % 128 + u / 128 % 128 * 256 + u / 16384 % 128 * 65536
          + u / 2097152 % 128 * 16777216 + u / 268435456 * 4294967296
          = (u % 128 + u / 128 % 128 * 256)
            + (u / 16384 % 128 + (u / 2097152 % 128 + u / 268435456 * 256) * 256) * 65536 by ring]
      rw [Nat.add_mul_div_right _ _ (show (0:Nat) < 65536 by norm_num), Nat.div_eq_of_lt h1,
        Nat.zero_add, Nat.add_mul_mod_self_right,
        Nat.mod_eq_of_lt (show u / 16384 % 128 < 256 by omega)]
    rw [h2, or128_eq _ (show u / 16384 % 128 < 128 by omega)]
  have hb3 : varintMerged v >>> (8 * 3) &&& 255 = u / 2 ^ 21 % 2 ^ 7 + 128 := by
    rw [hmerged, byte_of_or, and255_eq, and255_eq, Nat.shiftRight_eq_div_pow,
      Nat.shiftRight_eq_div_pow]
    norm_num
    have h1 : u % 128 + u / 128 % 128 * 256 + u / 16384 % 128 * 65536 < 16777216 := by omega
    have h2 : (u % 128 + u / 128 % 128 * 256 + u / 16384 % 128 * 65536
        + u / 2097152 % 128 * 16777216 + u / 268435456 * 4294967296) / 16777216 % 256
        = u / 2097152 % 128 := by
      rw [show u % 128 + u / 128 % 128 * 256 + u / 16384 % 128 * 65536
          + u / 2097152 % 128 * 16777216 + u / 268435456 * 4294967296
          = (u % 128 + u / 128 % 128 * 256 + u / 16384 % 128 * 65536)
            + (u / 2097152 % 128 + u / 268435456 * 256) * 16777216 by ring]
      rw [Nat.add_mul_div_right _ _ (show (0:Nat) < 16777216 by norm_num), Nat.div_eq_of_lt h1,
        Nat.zero_add, Nat.add_mul_mod_self_right,
        Nat.mod_eq_of_lt (show u / 2097152 % 128 < 256 by omega)]
    rw [h2, or128_eq _ (show u / 2097152 % 128 < 128 by omega)]
  have hb4 : varintMerged v >>> (8 * 4) &&& 255 = u / 2 ^ 28 := by
    rw [hmerged, byte_of_or, and255_eq, and255_eq, Nat.shiftRight_eq_div_pow,
      Nat.shiftRight_eq_div_pow]
    norm_num
    have h1 : u % 128 + u / 128 % 128 * 256 + u / 16384 % 128 * 65536
        + u / 2097152 % 128 * 16777216 < 4294967296 := by omega
    rw [Nat.add_mul_div_right _ _ (show (0:Nat) < 4294967296 by norm_num), Nat.div_eq_of_lt h1,
      Nat.zero_add, Nat.mod_eq_of_lt (show u / 268435456 < 256 by omega)]
  rw [writeVarint_take, hbn]
  simp only [List.take_succ_cons, List.take_zero]
  rw [hb0, hb1, hb2, hb3, hb4]

/-! #### Decoder step lemmas -/

theorem readVarintAux_cont (fuel i val g p : Nat) (t : List Nat) (hp : 2 ^ (7 * i) = p)
    (hg : g < 128) (hval : val < p) (hsh : g * p < 2 ^ 32) :
    readVarintAux (fuel + 1) i val ((g + 128) :: t)
      = readVarintAux fuel (i + 1) (val + g * p) t := by
  show (if (g + 128) &&& 0x80 = 0 then
      some (val ||| ((g + 128) &&& 0x7f) <<< (7 * i) % 2 ^ 32, t)
    else readVarintAux fuel (i + 1) (val ||| ((g + 128) &&& 0x7f) <<< (7 * i) % 2 ^ 32) t)
    = readVarintAux fuel (i + 1) (val + g * p) t
  rw [if_neg (by rw [and128_eq]; omega)]
  rw [show (g + 128) &&& 0x7f = g from by rw [and127_eq]; omega]
  rw [Nat.shiftLeft_eq, hp, Nat.mod_eq_of_lt hsh]
  rw [show val ||| g * p = val + g * p from by rw [← hp] at hval ⊢; exact or_add_disjoint _ _ _ hval]

theorem readVarintAux_last (fuel i val b p : Nat) (t : List Nat) (hp : 2 ^ (7 * i) = p)
    (hb : b < 128) (hval : val < p) (hsh : b * p < 2 ^ 32) :
    readVarintAux (fuel + 1) i val (b :: t) = some (val + b * p, t) := by
  show (if b &&& 0x80 = 0 then some (val ||| (b &&& 0x7f) <<< (7 * i) % 2 ^ 32, t)
    else readVarintAux fuel (i + 1) (val ||| (b &&& 0x7f) <<< (7 * i) % 2 ^ 32) t)
    = some (val + b * p, t)
  rw [if_pos (by rw [and128_eq]; omega)]
  rw [show b &&& 0x7f = b from by rw [and127_eq]; omega]
  rw [Nat.shiftLeft_eq, hp, Nat.mod_eq_of_lt hsh]
  rw [show val ||| b * p = val + b * p from by rw [← hp] at hval ⊢; exact or_add_disjoint _ _ _ hval]

theorem readVarint_decode1 (u : Nat) (rest : List Nat) (hhi : u < 2 ^ 7) :
    readVarintAux 5 0 0 ([u] ++ rest) = some (u, rest) := by
  simp only [List.cons_append, List.nil_append]
  rw [readVarintAux_last 4 0 0 u 1 rest (by norm_num) (by omega) (by omega) (by omega)]
  simp only [Option.some.injEq, Prod.mk.injEq]
  exact ⟨by omega, trivial⟩

theorem readVarint_decode2 (u : Nat) (rest : List Nat) (hlo : 2 ^ 7 ≤ u) (hhi : u < 2 ^ 14) :
    readVarintAux 5 0 0 ([u % 2 ^ 7 + 128, u / 2 ^ 7] ++ rest) = some (u, rest) := by
  simp only [List.cons_append, List.nil_append]
  rw [readVarintAux_cont 4 0 0 (u % 2 ^ 7) 1 _ (by norm_num) (by omega) (by omega) (by omega)]
  rw [readVarintAux_last 3 1 (0 + u % 2 ^ 7 * 1) (u / 2 ^ 7) 128 rest (by norm_num) (by omega)
    (by omega) (by omega)]
  simp only [Option.some.injEq, Prod.mk.injEq]
  exact ⟨by omega, trivial⟩

theorem readVarint_decode3 (u : Nat) (rest : List Nat) (hlo : 2 ^ 14 ≤ u) (hhi : u < 2 ^ 21) :
    readVarintAux 5 0 0 ([u % 2 ^ 7 + 128, u / 2 ^ 7 % 2 ^ 7 + 128, u / 2 ^ 14] ++ rest)
      = some (u, rest) := by
  simp only [List.cons_append, List.nil_append]
  rw [readVarintAux_cont 4 0 0 (u % 2 ^ 7) 1 _ (by norm_num) (by omega) (by omega) (by omega)]
  rw [readVarintAux_cont 3 1 (0 + u % 2 ^ 7 * 1) (u / 2 ^ 7 % 2 ^ 7) 128 _ (by norm_num)
    (by omega) (by omega) (by omega)]
  rw [readVarintAux_last 2 2 (0 + u % 2 ^ 7 * 1 + u / 2 ^ 7 % 2 ^ 7 * 128) (u / 2 ^ 14) 16384
    rest (by norm_num) (by omega) (by omega) (by omega)]
  simp only [Option.some.injEq, Prod.mk.injEq]
  exact ⟨by omega, trivial⟩

theorem readVarint_decode4 (u : Nat) (rest : List Nat) (hlo : 2 ^ 21 ≤ u) (hhi : u < 2 ^ 28) :
    readVarintAux 5 0 0
      ([u % 2 ^ 7 + 128, u / 2 ^ 7 % 2 ^ 7 + 128, u / 2 ^ 14 % 2 ^ 7 + 128, u / 2 ^ 21] ++ rest)
      = some (u, rest) := by
  simp only [List.cons_append, List.nil_append]
  rw [readVarintAux_cont 4 0 0 (u % 2 ^ 7) 1 _ (by norm_num) (by omega) (by omega) (by omega)]
  rw [readVarintAux_cont 3 1 (0 + u % 2 ^ 7 * 1) (u / 2 ^ 7 % 2 ^ 7) 128 _ (by norm_num)
    (by omega) (by omega) (by omega)]
  rw [readVarintAux_cont 2 2 (0 + u % 2 ^ 7 * 1 + u / 2 ^ 7 % 2 ^ 7 * 128) (u / 2 ^ 14 % 2 ^ 7)
    16384 _ (by norm_num) (by omega) (by omega) (by omega)]
  rw [readVarintAux_last 1 3 (0 + u % 2 ^ 7 * 1 + u / 2 ^ 7 % 2 ^ 7 * 128
    + u / 2 ^ 14 % 2 ^ 7 * 16384) (u / 2 ^ 21) 2097152 rest (by norm_num) (by omega) (by omega)
    (by omega)]
  simp only [Option.some.injEq, Prod.mk.injEq]
  exact ⟨by omega, trivial⟩

theorem readVarint_decode5 (u : Nat) (rest : List Nat) (hlo : 2 ^ 28 ≤ u) (hhi : u < 2 ^ 32) :
    readVarintAux 5 0 0
      ([u % 2 ^ 7 + 128, u / 2 ^ 7 % 2 ^ 7 + 128, u / 2 ^ 14 % 2 ^ 7 + 128,
        u / 2 ^ 21 % 2 ^ 7 + 128, u / 2 ^ 28] ++ rest) = some (u, rest) := by
  simp only [List.cons_append, List.nil_append]
  rw [readVarintAux_cont 4 0 0 (u % 2 ^ 7) 1 _ (by norm_num) (by omega) (by omega) (by omega)]
  rw [readVarintAux_cont 3 1 (0 + u % 2 ^ 7 * 1) (u / 2 ^ 7 % 2 ^ 7) 128 _ (by norm_num)
    (by omega) (by omega) (by omega)]
  rw [readVarintAux_cont 2 2 (0 + u % 2 ^ 7 * 1 + u / 2 ^ 7 % 2 ^ 7 * 128) (u / 2 ^ 14 % 2 ^ 7)
    16384 _ (by norm_num) (by omega) (by omega) (by omega)]
  rw [readVarintAux_cont 1 3 (0 + u % 2 ^ 7 * 1 + u / 2 ^ 7 % 2 ^ 7 * 128
    + u / 2 ^ 14 % 2 ^ 7 * 16384) (u / 2 ^ 21 % 2 ^ 7) 2097152 _ (by norm_num) (by omega)
    (by omega) (by omega)]
  rw [readVarintAux_last 0 4 (0 + u % 2 ^ 7 * 1 + u / 2 ^ 7 % 2 ^ 7 * 128
    + u / 2 ^ 14 % 2 ^ 7 * 16384 + u / 2 ^ 21 % 2 ^ 7 * 2097152) (u / 2 ^ 28) 268435456 rest
    (by norm_num) (by omega) (by omega) (by omega)]
  simp only [Option.some.injEq, Prod.mk.injEq]
  exact ⟨by omega, trivial⟩

theorem toInt32_varintX (v : Int) (hlo : -(2 : Int) ^ 31 ≤ v) (hhi : v < 2 ^ 31) :
    toInt32 (varintX v % 2 ^ 32) = v := by
  unfold toInt32 varintX
  split
  · omega
  · omega

theorem readVarint_single (b : Nat) (t : List Nat) (hb : b < 128) :
    readVarint (b :: t) = some ((b : Int), t) := by
  unfold readVarint
  rw [readVarintAux_last 4 0 0 b 1 t (by norm_num) (by omega) (by omega) (by omega)]
  simp only [Option.map_some']
  rw [show (0 + b * 1 : Nat) = b from by omega]
  unfold toInt32
  rw [if_pos (by omega)]

/-- C3: for every `i32` value `v`, `read_varint` applied to the bytes produced
by `write_varint v` (followed by any trailing bytes) returns `v` and consumes
exactly the encoding, leaving the trailing bytes; the encoding is at most 5
bytes and exactly the minimum length for the 32-bit pattern `u` of `v`; every
byte but the last carries a 7-bit little-endian payload group with the
continuation bit (bit 7) set, the last byte carries the top payload group with
the continuation bit clear; and the decoder stops at the first byte whose high
bit is 0. -/
theorem claim_C3_varint_roundtrip (v : Int) (hlo : -(2 : Int) ^ 31 ≤ v) (hhi : v < 2 ^ 31)
    (rest : List Nat) :
    readVarint (writeVarint v ++ rest) = some (v, rest)
    ∧ (writeVarint v).length ≤ 5
    ∧ (writeVarint v).length =
        (if varintX v % 2 ^ 32 < 2 ^ 7 then 1
         else if varintX v % 2 ^ 32 < 2 ^ 14 then 2
         else if varintX v % 2 ^ 32 < 2 ^ 21 then 3
         else if varintX v % 2 ^ 32 < 2 ^ 28 then 4 else 5)
    ∧ (∀ k, k + 1 < (writeVarint v).length →
        (writeVarint v).getD k 0 = varintX v % 2 ^ 32 / 2 ^ (7 * k) % 2 ^ 7 + 128)
    ∧ (writeVarint v).getLast?
        = some (varintX v % 2 ^ 32 / 2 ^ (7 * ((writeVarint v).length - 1)))
    ∧ (∀ (b : Nat) (t : List Nat), b < 128 → readVarint (b :: t) = some ((b : Int), t)) := by
  set u := varintX v % 2 ^ 32 with hu
  have hu32 : u < 2 ^ 32 := by rw [hu]; exact Nat.mod_lt _ (by norm_num)
  have hv : toInt32 u = v := by rw [hu]; exact toInt32_varintX v hlo hhi
  by_cases h1 : u < 2 ^ 7
  · rw [writeVarint_case1 v u hu.symm h1]
    refine ⟨?_, by simp, by rw [if_pos h1]; rfl, ?_, by simp only [List.getLast?_cons_cons, List.getLast?_singleton] <;> norm_num, fun b t hb => readVarint_single b t hb⟩
    · unfold readVarint
      rw [readVarint_decode1 u rest h1]
      simp only [Option.map_some']
      rw [hv]
    · intro k hk
      simp at hk
  · by_cases h2 : u < 2 ^ 14
    · rw [writeVarint_case2 v u hu.symm (by omega) h2]
      refine ⟨?_, by simp, by rw [if_neg h1, if_pos h2]; rfl, ?_, by simp only [List.getLast?_cons_cons, List.getLast?_singleton] <;> norm_num, fun b t hb =>
        readVarint_single b t hb⟩
      · unfold readVarint
        rw [readVarint_decode2 u rest (by omega) h2]
        simp only [Option.map_some']
        rw [hv]
      · intro k hk
        replace hk : k < 1 := by simp only [List.length_cons, List.length_nil] at hk; omega
        interval_cases k
        simp
    · by_cases h3 : u < 2 ^ 21
      · rw [writeVarint_case3 v u hu.symm (by omega) h3]
        refine ⟨?_, by simp, by rw [if_neg h1, if_neg h2, if_pos h3]; rfl, ?_, by simp only [List.getLast?_cons_cons, List.getLast?_singleton] <;> norm_num, fun b t hb =>
          readVarint_single b t hb⟩
        · unfold readVarint
          rw [readVarint_decode3 u rest (by omega) h3]
          simp only [Option.map_some']
          rw [hv]
        · intro k hk
          replace hk : k < 2 := by simp only [List.length_cons, List.length_nil] at hk; omega
          interval_cases k <;> simp
      · by_cases h4 : u < 2 ^ 28
        · rw [writeVarint_case4 v u hu.symm (by omega) h4]
          refine ⟨?_, by simp, by rw [if_neg h1, if_neg h2, if_neg h3, if_pos h4]; rfl, ?_, by simp only [List.getLast?_cons_cons, List.getLast?_singleton] <;> norm_num,
            fun b t hb => readVarint_single b t hb⟩
          · unfold readVarint
            rw [readVarint_decode4 u rest (by omega) h4]
            simp only [Option.map_some']
            rw [hv]
          · intro k hk
            replace hk : k < 3 := by simp only [List.length_cons, List.length_nil] at hk; omega
            interval_cases k <;> simp
        · rw [writeVarint_case5 v u hu.symm (by omega) hu32]
          refine ⟨?_, by simp, by rw [if_neg h1, if_neg h2, if_neg h3, if_neg h4]; rfl, ?_, by simp only [List.getLast?_cons_cons, List.getLast?_singleton] <;> norm_num,
            fun b t hb => readVarint_single b t hb⟩
          · unfold readVarint
            rw [readVarint_decode5 u rest (by omega) hu32]
            simp only [Option.map_some']
            rw [hv]
          · intro k hk
            replace hk : k < 4 := by simp only [List.length_cons, List.length_nil] at hk; omega
            interval_cases k <;> simp

/-- C3 witness: the value 300 encodes to two bytes which decode back to 300,
leaving the trailing byte untouched. -/
theorem claim_C3_varint_roundtrip_witness :
    (-(2 : Int) ^ 31 ≤ 300 ∧ (300 : Int) < 2 ^ 31)
    ∧ readVarint (writeVarint 300 ++ [9]) = some (300, [9]) :=
  ⟨⟨by norm_num, by norm_num⟩,
    (claim_C3_varint_roundtrip 300 (by norm_num) (by norm_num) [9]).1⟩

/-! ### Sub-chunk block packing — src/chunk.rs

`Chunk::serialize_to_chunk_packet` (lines 333-372) packs per-block palette
indices into 64-bit words with `bpe = max(ceil(log2(palette.len())), 4)` bits
per entry, `64 / bpe` entries per word (entry `j` of word `i` at bit offset
`bpe * j`, no straddling) and `ceil(4096 / elems_per_num)` words.  The `f32`
computation `(len as f32).log2().ceil()` at line 340 is exact for
`len ≤ 2 ^ 15`: such `len` is exactly representable, `log2f` is exact on
powers of two, and for other `len` the value `log2 len` lies strictly between
two integers, further than half an ulp from either, so the ceiling of the
rounded value is the exact ceiling `Nat.log2 (2 * len - 1)`.  Likewise
`(4096f32 / e).ceil()` at line 349 equals the natural-number ceiling for every
`e = 64 / bpe ≤ 16`.  `SubChunk::decode_blocks` (lines 172-181) unpacks with
`bits = max(ilog2(len) + 1, 4)` instead. -/

/-- Ceiling of `log2 n` for `n ≥ 1` — the value of line 340's
`(palette.len() as f32).log2().ceil() as u32`. -/
def ceilLog2 (n : Nat) : Nat := Nat.log2 (2 * n - 1)

/-- Line 340: `bpe = ((palette.len() as f32).log2().ceil() as u32).max(4)`. -/
def bpe (n : Nat) : Nat := max (ceilLog2 n) 4

/-- Line 347: `elems_per_num = 64 / bpe`. -/
def elemsPerNum (n : Nat) : Nat := 64 / bpe n

/-- Line 349: `num_elems = (4096f32 / (elems_per_num as f32)).ceil() as u32`,
the natural-number ceiling of `4096 / elems_per_num`. -/
def numElems (n : Nat) : Nat := (4096 + elemsPerNum n - 1) / elemsPerNum n

/-- The inner loop of lines 352-362 building word `i` (`base = i * elems_per_num`):
entry `j` is or-ed in at bit offset `bpe * j` on the 64-bit accumulator,
stopping at absolute index 4096. -/
def packWordAux (bpe0 : Nat) (idxs : List Nat) (base : Nat) : Nat → Nat → Nat → Nat
  | e, _, 0 => e
  | e, j, fuel + 1 =>
      if 4096 ≤ base + j then e
      else packWordAux bpe0 idxs base
        (e ||| (idxs.getD (base + j) 0 <<< (bpe0 * j)) % 2 ^ 64) (j + 1) fuel

/-- Word `i` of the packed `data` array (lines 352-362). -/
def packWord (bpe0 per : Nat) (idxs : List Nat) (i : Nat) : Nat :=
  packWordAux bpe0 idxs (i * per) 0 0 per

/-- The packed long array `data` of lines 351-362, as unsigned 64-bit words,
for a 4096-entry index list `idxs` over a palette of length `n`. -/
def packWords (n : Nat) (idxs : List Nat) : List Nat :=
  (List.range (numElems n)).map (fun i => packWord (bpe n) (elemsPerNum n) idxs i)

/-- Reinterpretation of an unsigned 64-bit word as the `i64` stored in the
chunk's `LongArray`. -/
def toInt64 (w : Nat) : Int := if w < 2 ^ 63 then (w : Int) else (w : Int) - 2 ^ 64

/-- `SubChunk::decode_state` (src/chunk.rs lines 163-170): emit `per_state`
entries, each `(val & mask) as u16`, shifting `val` right by `bits` after
each. -/
def decode_state (val bits mask : Nat) : Nat → List Nat
  | 0 => []
  | per + 1 => (val &&& mask) % 2 ^ 16 :: decode_state (val >>> bits) bits mask per

/-- `SubChunk::decode_blocks` (src/chunk.rs lines 172-181):
`bits = (palette.len().ilog2() + 1).max(4)`, `mask = (1u32 << bits) - 1`,
`per_state = 64 / bits`, concatenating `decode_state(*num as u64, ...)` over
the states.  Only the palette's length is read, so the palette parameter is
its length `n`; `ilog2` on a positive `usize` is `Nat.log2`. -/
def decode_blocks (n : Nat) (states : List Int) : List Nat :=
  states.flatMap (fun num =>
    decode_state ((num % (2 : Int) ^ 64).toNat) (max (Nat.log2 n + 1) 4)
      ((1 <<< max (Nat.log2 n + 1) 4) - 1) (64 / max (Nat.log2 n + 1) 4))

/-- Little-endian base-`2 ^ B` value of a list of `B`-bit groups. -/
def wordOf (B : Nat) : List Nat → Nat
  | [] => 0
  | c :: rest => c + 2 ^ B * wordOf B rest

theorem log2_char (n k : Nat) (h1 : 2 ^ k ≤ n) (h2 : n < 2 ^ (k + 1)) :
    Nat.log2 n = k := by
  rw [Nat.log2_eq_log_two]
  exact Nat.log_eq_of_pow_le_of_lt_pow h1 h2

theorem le_pow_ceilLog2 (n : Nat) (h : 1 ≤ n) : n ≤ 2 ^ ceilLog2 n := by
  unfold ceilLog2
  have h1 : 2 * n - 1 < 2 ^ (Nat.log2 (2 * n - 1) + 1) := Nat.lt_log2_self
  have h2 : 2 ^ (Nat.log2 (2 * n - 1) + 1) = 2 * 2 ^ Nat.log2 (2 * n - 1) := by ring
  omega

theorem ceilLog2_le (n k : Nat) (h : n ≤ 2 ^ k) (hn : 1 ≤ n) : ceilLog2 n ≤ k := by
  unfold ceilLog2
  by_contra hc
  have h1 : 2 ^ Nat.log2 (2 * n - 1) ≤ 2 * n - 1 := Nat.log2_self_le (by omega)
  have h2 : 2 ^ (k + 1) ≤ 2 ^ Nat.log2 (2 * n - 1) :=
    Nat.pow_le_pow_right (by norm_num) (by omega)
  have h3 : 2 ^ (k + 1) = 2 * 2 ^ k := by ring
  omega

theorem bits_eq (n : Nat) (h1 : 1 ≤ n) (h2 : n ≤ 2 ^ 15)
    (hp : ¬ ∃ k, 4 ≤ k ∧ k ≤ 15 ∧ n = 2 ^ k) :
    bpe n = max (Nat.log2 n + 1) 4 := by
  unfold bpe ceilLog2
  by_cases hpow : ∃ k, n = 2 ^ k
  · obtain ⟨k, hk⟩ := hpow
    have hk15 : k ≤ 15 := by
      by_contra hc
      have : 2 ^ 16 ≤ 2 ^ k := Nat.pow_le_pow_right (by norm_num) (by omega)
      have : (2 : Nat) ^ 16 = 2 * 2 ^ 15 := by ring
      omega
    have hk3 : k ≤ 3 := by
      by_contra hc
      exact hp ⟨k, by omega, hk15, hk⟩
    subst hk
    have e1 : (2 : Nat) ^ (k + 1) = 2 * 2 ^ k := by ring
    have hpos : 1 ≤ 2 ^ k := Nat.one_le_two_pow
    have hl1 : Nat.log2 (2 * 2 ^ k - 1) = k :=
      log2_char _ k (by omega) (by omega)
    have hl2 : Nat.log2 (2 ^ k) = k := log2_char _ k (le_refl _) (by omega)
    rw [hl1, hl2]
    omega
  · have hn2 : 2 ≤ n := by
      rcases Nat.lt_or_ge n 2 with h | h
      · exfalso; exact hpow ⟨0, by omega⟩
      · exact h
    have hk1 : 2 ^ Nat.log2 n ≤ n := Nat.log2_self_le (by omega)
    have hk2 : n < 2 ^ (Nat.log2 n + 1) := Nat.lt_log2_self
    have hne : n ≠ 2 ^ Nat.log2 n := fun he => hpow ⟨Nat.log2 n, he⟩
    have e1 : 2 ^ (Nat.log2 n + 1) = 2 * 2 ^ Nat.log2 n := by ring
    have e2 : 2 ^ (Nat.log2 n + 1 + 1) = 4 * 2 ^ Nat.log2 n := by ring
    have hl : Nat.log2 (2 * n - 1) = Nat.log2 n + 1 :=
      log2_char _ _ (by omega) (by omega)
    rw [hl]

theorem decode_state_length (bits mask : Nat) :
    ∀ (per val : Nat), (decode_state val bits mask per).length = per := by
  intro per
  induction per with
  | zero => intro val; rfl
  | succ p ih =>
      intro val
      show ((val &&& mask) % 2 ^ 16 :: decode_state (val >>> bits) bits mask p).length = p + 1
      rw [List.length_cons, ih]

theorem decode_state_zero (bits mask : Nat) :
    ∀ per, decode_state 0 bits mask per = List.replicate per 0 := by
  intro per
  induction per with
  | zero => rfl
  | succ p ih =>
      show (0 &&& mask) % 2 ^ 16 :: decode_state (0 >>> bits) bits mask p
        = List.replicate (p + 1) 0
      rw [Nat.zero_and, Nat.zero_mod, Nat.zero_shiftRight, ih, List.replicate_succ]

theorem decode_state_wordOf (B : Nat) (hB16 : B ≤ 16) :
    ∀ (per : Nat) (cs : List Nat), cs.length ≤ per → (∀ c ∈ cs, c < 2 ^ B) →
      decode_state (wordOf B cs) B (2 ^ B - 1) per
        = cs ++ List.replicate (per - cs.length) 0 := by
  intro per
  induction per with
  | zero =>
      intro cs hlen _
      have hnil : cs = [] := List.eq_nil_of_length_eq_zero (by omega)
      subst hnil
      rfl
  | succ p ih =>
      intro cs hlen hbound
      match cs with
      | [] =>
          rw [show wordOf B [] = 0 from rfl, decode_state_zero]
          rfl
      | c :: rest =>
          have hc : c < 2 ^ B := hbound c (List.mem_cons_self c rest)
          have hc16 : c < 2 ^ 16 :=
            lt_of_lt_of_le hc (Nat.pow_le_pow_right (by norm_num) hB16)
          show (wordOf B (c :: rest) &&& (2 ^ B - 1)) % 2 ^ 16
              :: decode_state (wordOf B (c :: rest) >>> B) B (2 ^ B - 1) p
            = (c :: rest) ++ List.replicate (p + 1 - (rest.length + 1)) 0
          rw [show wordOf B (c :: rest) = c + 2 ^ B * wordOf B rest from rfl]
          rw [Nat.and_pow_two_sub_one_eq_mod, Nat.add_mul_mod_self_left,
            Nat.mod_eq_of_lt hc, Nat.mod_eq_of_lt hc16]
          rw [Nat.shiftRight_eq_div_pow,
            Nat.add_mul_div_left _ _ (Nat.pos_pow_of_pos B (by norm_num)),
            Nat.div_eq_of_lt hc, Nat.zero_add]
          rw [ih rest (by simpa using hlen) (fun x hx => hbound x (List.mem_cons_of_mem c hx))]
          rw [List.cons_append]
          have : p - rest.length = p + 1 - (rest.length + 1) := by omega
          rw [this]

theorem wordOf_lt (B : Nat) :
    ∀ (cs : List Nat), (∀ c ∈ cs, c < 2 ^ B) → wordOf B cs < 2 ^ (B * cs.length) := by
  intro cs
  induction cs with
  | nil => intro _; simp [wordOf]
  | cons c rest ih =>
      intro hb
      have hc : c < 2 ^ B := hb c (List.mem_cons_self c rest)
      have hr : wordOf B rest < 2 ^ (B * rest.length) :=
        ih (fun x hx => hb x (List.mem_cons_of_mem c hx))
      show c + 2 ^ B * wordOf B rest < 2 ^ (B * (rest.length + 1))
      have e1 : 2 ^ (B * (rest.length + 1)) = 2 ^ B * 2 ^ (B * rest.length) := by
        rw [← pow_add]; ring_nf
      rw [e1]
      calc c + 2 ^ B * wordOf B rest
          < 2 ^ B + 2 ^ B * wordOf B rest := by omega
        _ = 2 ^ B * (wordOf B rest + 1) := by ring
        _ ≤ 2 ^ B * 2 ^ (B * rest.length) := Nat.mul_le_mul_left _ (by omega)

theorem packWordAux_eq (B : Nat) (idxs : List Nat) (hlen : idxs.length = 4096)
    (hbound : ∀ c ∈ idxs, c < 2 ^ B) (base : Nat) :
    ∀ (fuel j e : Nat), e < 2 ^ (B * j) → B * (j + fuel) ≤ 64 →
      packWordAux B idxs base e j fuel
        = e + wordOf B ((idxs.drop (base + j)).take fuel) * 2 ^ (B * j) := by
  intro fuel
  induction fuel with
  | zero =>
      intro j e _ _
      show e = e + wordOf B ((idxs.drop (base + j)).take 0) * 2 ^ (B * j)
      rw [List.take_zero]
      show e = e + 0 * 2 ^ (B * j)
      omega
  | succ f ih =>
      intro j e he hfit
      show (if 4096 ≤ base + j then e
          else packWordAux B idxs base
            (e ||| (idxs.getD (base + j) 0 <<< (B * j)) % 2 ^ 64) (j + 1) f)
        = e + wordOf B ((idxs.drop (base + j)).take (f + 1)) * 2 ^ (B * j)
      by_cases hout : 4096 ≤ base + j
      · rw [if_pos hout, List.drop_eq_nil_of_le (by omega), List.take_nil]
        show e = e + 0 * 2 ^ (B * j)
        omega
      · rw [if_neg hout]
        have hin : base + j < idxs.length := by omega
        have hg : idxs.getD (base + j) 0 = idxs[base + j] := List.getD_eq_getElem idxs 0 hin
        have hc : idxs[base + j] < 2 ^ B := hbound _ (List.getElem_mem hin)
        have e1 : 2 ^ (B * (j + 1)) = 2 ^ (B * j) * 2 ^ B := by
          rw [← pow_add]; ring_nf
        have hshift : (idxs.getD (base + j) 0 <<< (B * j)) % 2 ^ 64
            = idxs[base + j] * 2 ^ (B * j) := by
          rw [hg, Nat.shiftLeft_eq, Nat.mod_eq_of_lt]
          calc idxs[base + j] * 2 ^ (B * j) < 2 ^ B * 2 ^ (B * j) :=
                mul_lt_mul_of_pos_right hc (Nat.pos_pow_of_pos _ (by norm_num))
            _ = 2 ^ (B * (j + 1)) := by rw [e1]; ring
            _ ≤ 2 ^ 64 := Nat.pow_le_pow_right (by norm_num) (by
                have : B * (j + 1) ≤ B * (j + (f + 1)) :=
                  Nat.mul_le_mul_left B (by omega)
                omega)
        have hor : e ||| idxs[base + j] * 2 ^ (B * j)
            = e + idxs[base + j] * 2 ^ (B * j) := or_add_disjoint _ _ _ he
        rw [hshift, hor]
        have he' : e + idxs[base + j] * 2 ^ (B * j) < 2 ^ (B * (j + 1)) := by
          rw [e1]
          have h1 : e + idxs[base + j] * 2 ^ (B * j) < (idxs[base + j] + 1) * 2 ^ (B * j) := by
            have : (idxs[base + j] + 1) * 2 ^ (B * j)
                = idxs[base + j] * 2 ^ (B * j) + 2 ^ (B * j) := by ring
            omega
          have h2 : (idxs[base + j] + 1) * 2 ^ (B * j) ≤ 2 ^ B * 2 ^ (B * j) :=
            Nat.mul_le_mul_right _ (by omega)
          calc e + idxs[base + j] * 2 ^ (B * j) < (idxs[base + j] + 1) * 2 ^ (B * j) := h1
            _ ≤ 2 ^ B * 2 ^ (B * j) := h2
            _ = 2 ^ (B * j) * 2 ^ B := by ring
        have hfit' : B * (j + 1 + f) ≤ 64 := by
          rw [show j + 1 + f = j + (f + 1) from by omega]
          exact hfit
        rw [ih (j + 1) (e + idxs[base + j] * 2 ^ (B * j)) he' hfit']
        rw [List.drop_eq_getElem_cons hin, List.take_succ_cons]
        rw [show wordOf B (idxs[base + j] :: (idxs.drop (base + j + 1)).take f)
          = idxs[base + j] + 2 ^ B * wordOf B ((idxs.drop (base + j + 1)).take f) from rfl]
        rw [show base + (j + 1) = base + j + 1 from by omega, e1]
        ring

theorem packWord_eq (B per : Nat) (idxs : List Nat) (hlen : idxs.length = 4096)
    (hbound : ∀ c ∈ idxs, c < 2 ^ B) (hper64 : B * per ≤ 64) (i : Nat) :
    packWord B per idxs i = wordOf B ((idxs.drop (i * per)).take per) := by
  unfold packWord
  rw [packWordAux_eq B idxs hlen hbound (i * per) per 0 0
    (by simp) (by simpa using hper64)]
  simp

theorem toInt64_mod (w : Nat) (hw : w < 2 ^ 64) :
    ((toInt64 w % (2 : Int) ^ 64).toNat) = w := by
  unfold toInt64
  split <;> omega

theorem packWord_lt (B per : Nat) (idxs : List Nat) (hlen : idxs.length = 4096)
    (hbound : ∀ c ∈ idxs, c < 2 ^ B) (hper64 : B * per ≤ 64) (i : Nat) :
    packWord B per idxs i < 2 ^ 64 := by
  rw [packWord_eq B per idxs hlen hbound hper64 i]
  have h1 : wordOf B ((idxs.drop (i * per)).take per)
      < 2 ^ (B * ((idxs.drop (i * per)).take per).length) :=
    wordOf_lt B _ (fun c hc => hbound c (List.mem_of_mem_drop (List.mem_of_mem_take hc)))
  have h2 : B * ((idxs.drop (i * per)).take per).length ≤ 64 :=
    le_trans (Nat.mul_le_mul_left B (List.length_take_le per _)) hper64
  exact lt_of_lt_of_le h1 (Nat.pow_le_pow_right (by norm_num) h2)

theorem decode_pack_chunks (B per : Nat) (idxs : List Nat) (hB16 : B ≤ 16)
    (hper64 : B * per ≤ 64) (hlen : idxs.length = 4096) (hbound : ∀ c ∈ idxs, c < 2 ^ B) :
    ∀ (k : Nat), ∀ (s : Nat), 4096 ≤ (s + k) * per →
      (List.range' s k).flatMap (fun i =>
          decode_state ((toInt64 (packWord B per idxs i) % (2 : Int) ^ 64).toNat) B
            (2 ^ B - 1) per)
        = idxs.drop (s * per) ++ List.replicate ((s + k) * per - max 4096 (s * per)) 0 := by
  intro k
  induction k with
  | zero =>
      intro s hk
      rw [show List.range' s 0 = ([] : List Nat) from rfl, List.flatMap_nil]
      have e0 : (s + 0) * per = s * per := by ring
      rw [e0] at hk ⊢
      rw [List.drop_eq_nil_of_le (by omega)]
      rw [show s * per - max 4096 (s * per) = 0 from by omega]
      rfl
  | succ k ih =>
      intro s hk
      rw [show List.range' s (k + 1) = s :: List.range' (s + 1) k from List.range'_succ s k 1]
      rw [List.flatMap_cons]
      rw [toInt64_mod _ (packWord_lt B per idxs hlen hbound hper64 s)]
      rw [packWord_eq B per idxs hlen hbound hper64 s]
      have hslice : ∀ c ∈ (idxs.drop (s * per)).take per, c < 2 ^ B :=
        fun c hc => hbound c (List.mem_of_mem_drop (List.mem_of_mem_take hc))
      rw [decode_state_wordOf B hB16 per _ (List.length_take_le per _) hslice]
      have e1 : (s + 1) * per = s * per + per := by ring
      have e2 : (s + 1 + k) * per = (s + 1) * per + k * per := by ring
      have e3 : (s + (k + 1)) * per = (s + 1) * per + k * per := by ring
      rw [ih (s + 1) (by omega)]
      have hdd : (idxs.drop (s * per)).drop per = idxs.drop ((s + 1) * per) := by
        rw [List.drop_drop, e1]
      by_cases hfull : (s + 1) * per ≤ 4096
      · have htl : ((idxs.drop (s * per)).take per).length = per := by
          rw [List.length_take, List.length_drop, hlen]
          omega
        rw [htl, Nat.sub_self]
        rw [show (List.replicate 0 0 : List Nat) = [] from rfl, List.append_nil]
        rw [← List.append_assoc, ← hdd, List.take_append_drop]
        rw [show (s + 1 + k) * per - max 4096 ((s + 1) * per)
          = (s + (k + 1)) * per - max 4096 (s * per) from by omega]
      · have hsl : (idxs.drop (s * per)).take per = idxs.drop (s * per) :=
          List.take_of_length_le (by rw [List.length_drop, hlen]; omega)
        rw [hsl, List.length_drop, hlen]
        rw [List.drop_eq_nil_of_le (show idxs.length ≤ (s + 1) * per from by rw [hlen]; omega)]
        rw [List.nil_append, List.append_assoc, ← List.replicate_add]
        rw [show per - (4096 - s * per) + ((s + 1 + k) * per - max 4096 ((s + 1) * per))
          = (s + (k + 1)) * per - max 4096 (s * per) from by omega]

theorem decode_blocks_length (n : Nat) (states : List Int) :
    (decode_blocks n states).length
      = states.length * (64 / max (Nat.log2 n + 1) 4) := by
  unfold decode_blocks
  induction states with
  | nil => rw [List.flatMap_nil]; simp
  | cons a t ih =>
      rw [List.flatMap_cons, List.length_append, decode_state_length, ih, List.length_cons]
      ring

/-- C2 counterexample: for the 16-entry palette (a power of two in range) the
encoder packs 4096 zero indices at 4 bits per entry, but `decode_blocks`
computes `bits = ilog2(16) + 1 = 5`, so it unpacks the 256 words into
256 * 12 = 3072 entries and does not recover the 4096 indices. -/
theorem claim_C2_counterexample :
    decode_blocks 16 ((packWords 16 (List.replicate 4096 0)).map toInt64)
      ≠ List.replicate 4096 0 := by
  intro h
  have hL := congrArg List.length h
  rw [decode_blocks_length, List.length_map, List.length_replicate] at hL
  have hpw : (packWords 16 (List.replicate 4096 0)).length = numElems 16 := by
    unfold packWords
    rw [List.length_map, List.length_range]
  rw [hpw] at hL
  have hlog16 : Nat.log2 16 = 4 := log2_char 16 4 (by norm_num) (by norm_num)
  have hlog31 : Nat.log2 31 = 4 := log2_char 31 4 (by norm_num) (by norm_num)
  have hne : numElems 16 = 256 := by
    unfold numElems elemsPerNum bpe ceilLog2
    norm_num [hlog31]
  rw [hne, hlog16] at hL
  norm_num at hL

/-- C2 (amended): for a palette of size `1 ≤ n ≤ 2 ^ 15` that is not a power
of two `2 ^ k` with `4 ≤ k ≤ 15`, decoding the encoder's packed words yields
the original 4096 indices followed by `num_elems * elems_per_num - 4096`
zero entries (the decoder emits whole words, so its output can exceed 4096
entries); in particular the first 4096 decoded entries are exactly the
original indices.  For the excluded palette sizes the bit widths of encoder
(`ceil(log2 n)`) and decoder (`ilog2(n) + 1`) disagree. -/
theorem claim_C2_block_packing (n : Nat) (h1 : 1 ≤ n) (h2 : n ≤ 2 ^ 15)
    (hp : ¬ ∃ k, 4 ≤ k ∧ k ≤ 15 ∧ n = 2 ^ k)
    (idxs : List Nat) (hlen : idxs.length = 4096) (hbound : ∀ c ∈ idxs, c < n) :
    decode_blocks n ((packWords n idxs).map toInt64)
        = idxs ++ List.replicate (numElems n * elemsPerNum n - 4096) 0
    ∧ (decode_blocks n ((packWords n idxs).map toInt64)).take 4096 = idxs := by
  have hmain : decode_blocks n ((packWords n idxs).map toInt64)
      = idxs ++ List.replicate (numElems n * elemsPerNum n - 4096) 0 := by
    unfold decode_blocks packWords
    set M := max (Nat.log2 n + 1) 4 with hM
    have hbpe : bpe n = M := by
      rw [hM]
      exact bits_eq n h1 h2 hp
    have hclB : ceilLog2 n ≤ M := by
      rw [← hbpe]
      exact le_max_left _ _
    have hB16 : M ≤ 16 := by
      have hh := Nat.log2_self_le (show n ≠ 0 from by omega)
      by_contra hc
      have hp16 : 2 ^ 16 ≤ 2 ^ Nat.log2 n := Nat.pow_le_pow_right (by norm_num) (by omega)
      have e : (2 : Nat) ^ 16 = 2 * 2 ^ 15 := by ring
      omega
    have hper64 : M * (64 / M) ≤ 64 :=
      calc M * (64 / M) = 64 / M * M := by ring
        _ ≤ 64 := Nat.div_mul_le_self 64 M
    have hperpos : 0 < 64 / M := Nat.div_pos (by omega) (by omega)
    have hbound' : ∀ c ∈ idxs, c < 2 ^ M := fun c hc =>
      lt_of_lt_of_le (hbound c hc)
        (le_trans (le_pow_ceilLog2 n h1) (Nat.pow_le_pow_right (by norm_num) hclB))
    have hEPN : elemsPerNum n = 64 / M := by
      unfold elemsPerNum
      rw [hbpe]
    have hnum : 4096 ≤ numElems n * (64 / M) := by
      have hq := Nat.div_add_mod (4096 + 64 / M - 1) (64 / M)
      have hr : (4096 + 64 / M - 1) % (64 / M) < 64 / M := Nat.mod_lt _ hperpos
      have hNE : numElems n = (4096 + 64 / M - 1) / (64 / M) := by
        unfold numElems
        rw [hEPN]
      have hcomm : 64 / M * ((4096 + 64 / M - 1) / (64 / M))
          = (4096 + 64 / M - 1) / (64 / M) * (64 / M) := by ring
      rw [hNE]
      omega
    rw [hbpe, hEPN]
    rw [show ((1 <<< M) - 1 : Nat) = 2 ^ M - 1 from by rw [Nat.shiftLeft_eq, one_mul]]
    rw [List.flatMap_map, List.flatMap_map]
    rw [List.range_eq_range']
    rw [decode_pack_chunks M (64 / M) idxs hB16 hper64 hlen hbound' (numElems n) 0
      (by have e : (0 + numElems n) * (64 / M) = numElems n * (64 / M) := by ring
          omega)]
    simp only [Nat.zero_mul, Nat.zero_add, List.drop_zero, Nat.max_zero]
  exact ⟨hmain, by rw [hmain]; exact List.take_left' hlen⟩

/-- C2 witness: a 3-entry palette (not a power of two) with all 4096 indices
equal to 1 round trips: the first 4096 decoded entries are the indices. -/
theorem claim_C2_block_packing_witness :
    (List.replicate 4096 1).length = 4096
    ∧ (decode_blocks 3 ((packWords 3 (List.replicate 4096 1)).map toInt64)).take 4096
        = List.replicate 4096 1 :=
  ⟨by rw [List.length_replicate],
    (claim_C2_block_packing 3 (by norm_num) (by norm_num)
      (by rintro ⟨k, hk4, hk15, he⟩
          have h16 : (2 : Nat) ^ 4 ≤ 2 ^ k := Nat.pow_le_pow_right (by norm_num) hk4
          norm_num at h16
          omega)
      (List.replicate 4096 1) (by rw [List.length_replicate])
      (by intro c hc
          rw [List.eq_of_mem_replicate hc]
          norm_num)).2⟩

/-! ### NBT — src/nbt.rs

`Tag` (src/nbt.rs lines 50-66) with numeric payloads modelled by their byte
patterns (`i8`/`i16`/`i32`/`i64` as `Nat` below `2^8`/`2^16`/`2^32`/`2^64`;
`f32`/`f64` by their IEEE bit patterns, which `put_f32`/`get_f32` preserve
exactly), `String` by its UTF-8 byte list, and the `Compound`'s `HashMap` by
its list of entries in iteration order.  `TagType::from_id` (lines 27-44) is
merged into the parser: the functions below dispatch directly on the raw type
byte, every byte above 12 mapping to `Invalid` exactly as `from_id` does. -/

inductive Tag where
  | TEnd : Tag
  | TByte : Nat → Tag
  | TShort : Nat → Tag
  | TInt : Nat → Tag
  | TLong : Nat → Tag
  | TFloat : Nat → Tag
  | TDouble : Nat → Tag
  | TByteArray : List Nat → Tag
  | TString : List Nat → Tag
  | TList : List Tag → Tag
  | TCompound : List (List Nat × Tag) → Tag
  | TIntArray : List Nat → Tag
  | TLongArray : List Nat → Tag
  | TInvalid : Tag

/-- `Tag::get_type_id` (src/nbt.rs lines 152-169); `Invalid` falls into the
catch-all arm and gets id 0. -/
def Tag.get_type_id : Tag → Nat
  | .TEnd => 0
  | .TByte _ => 1
  | .TShort _ => 2
  | .TInt _ => 3
  | .TLong _ => 4
  | .TFloat _ => 5
  | .TDouble _ => 6
  | .TByteArray _ => 7
  | .TString _ => 8
  | .TList _ => 9
  | .TCompound _ => 10
  | .TIntArray _ => 11
  | .TLongArray _ => 12
  | .TInvalid => 0

mutual

/-- `Tag::serialize_internal` (src/nbt.rs lines 171-226): big-endian fields,
length-prefixed arrays and strings, the `List`'s element type taken from its
first element (`End` if empty), the `Compound` entries each as type byte,
u16-length-prefixed key and value, closed by a 0 end-tag byte; `End` and the
catch-all (`Invalid`) write nothing. -/
def serializeInternal : Tag → List Nat
  | .TEnd => []
  | .TByte v => natToBytesBE 1 v
  | .TShort v => natToBytesBE 2 v
  | .TInt v => natToBytesBE 4 v
  | .TLong v => natToBytesBE 8 v
  | .TFloat v => natToBytesBE 4 v
  | .TDouble v => natToBytesBE 8 v
  | .TByteArray bs => natToBytesBE 4 bs.length ++ bs
  | .TString s => natToBytesBE 2 s.length ++ s
  | .TList ts => (ts.headD .TEnd).get_type_id :: (natToBytesBE 4 ts.length ++ serializeList ts)
  | .TCompound es => serializeCompound es ++ [0]
  | .TIntArray vs => natToBytesBE 4 vs.length ++ concatMap (natToBytesBE 4) vs
  | .TLongArray vs => natToBytesBE 4 vs.length ++ concatMap (natToBytesBE 8) vs
  | .TInvalid => []

/-- The `for tag in v` loop of the `List` arm. -/
def serializeList : List Tag → List Nat
  | [] => []
  | t :: ts => serializeInternal t ++ serializeList ts

/-- The `for (k, v) in c` loop of the `Compound` arm. -/
def serializeCompound : List (List Nat × Tag) → List Nat
  | [] => []
  | (k, v) :: es =>
      v.get_type_id :: (natToBytesBE 2 k.length ++ k ++ serializeInternal v
        ++ serializeCompound es)

end

/-- `Tag::serialize` (src/nbt.rs lines 228-234): type byte, an empty
name (`put_u16(0)`) unless in ≥1.20.2 network form, then the payload. -/
def Tag.serialize (t : Tag) (is_network_1_20_2_plus : Bool) : List Nat :=
  t.get_type_id :: ((if is_network_1_20_2_plus then [] else [0, 0]) ++ serializeInternal t)

/-- The `usize` value of the `i32` whose 32-bit pattern is `p`
(`data.get_i32() as usize` in the `ByteArray` arm): sign extension to 64
bits. -/
def i32AsUsize (p : Nat) : Nat := (toInt32 p % (2 : Int) ^ 64).toNat

/-- The `for _ in 0..size` loop of the `IntArray` arm: read `n` big-endian
`i32`s (`0..size` is empty when `size` is negative, so the caller passes
`(toInt32 size).toNat`). -/
def parseInts : Nat → List Nat → Option (List Nat × List Nat)
  | 0, data => some ([], data)
  | n + 1, data =>
      (readBytesBE 4 0 data).bind (fun r =>
        (parseInts n r.2).map (fun q => (r.1 :: q.1, q.2)))

/-- The `for _ in 0..size` loop of the `LongArray` arm. -/
def parseLongs : Nat → List Nat → Option (List Nat × List Nat)
  | 0, data => some ([], data)
  | n + 1, data =>
      (readBytesBE 8 0 data).bind (fun r =>
        (parseLongs n r.2).map (fun q => (r.1 :: q.1, q.2)))

mutual

/-- `Tag::parse_tag` (src/nbt.rs lines 85-142), dispatching on the raw type
byte (the composition with `TagType::from_id`: bytes above 12 hit the
catch-all and give `Invalid`).  `none` models the panics of reading or
slicing past the end of the buffer; the `ByteArray` size is cast through
`usize` (sign-extended), while the `List`/`IntArray`/`LongArray` loops run
`0..size` times, which is empty for a negative `size`.  The `fuel` argument
only bounds the recursion depth of the Rust original. -/
def parseTag : Nat → Nat → List Nat → Option (Tag × List Nat)
  | 0, _, _ => none
  | fuel + 1, ty, data =>
      match ty with
      | 0 => some (.TEnd, data)
      | 1 =>
          match data with
          | [] => none
          | b :: rest => some (.TByte b, rest)
      | 2 => (readBytesBE 2 0 data).map (fun r => (.TShort r.1, r.2))
      | 3 => (readBytesBE 4 0 data).map (fun r => (.TInt r.1, r.2))
      | 4 => (readBytesBE 8 0 data).map (fun r => (.TLong r.1, r.2))
      | 5 => (readBytesBE 4 0 data).map (fun r => (.TFloat r.1, r.2))
      | 6 => (readBytesBE 8 0 data).map (fun r => (.TDouble r.1, r.2))
      | 7 =>
          (readBytesBE 4 0 data).bind (fun r =>
            if i32AsUsize r.1 ≤ r.2.length then
              some (.TByteArray (r.2.take (i32AsUsize r.1)), r.2.drop (i32AsUsize r.1))
            else none)
      | 8 =>
          (readBytesBE 2 0 data).bind (fun r =>
            if r.1 ≤ r.2.length then some (.TString (r.2.take r.1), r.2.drop r.1) else none)
      | 9 =>
          match data with
          | [] => none
          | et :: after =>
              (readBytesBE 4 0 after).bind (fun r =>
                (parseListElems fuel et ((toInt32 r.1).toNat) r.2).map
                  (fun q => (.TList q.1, q.2)))
      | 10 => (parseCompoundEntries fuel data).map (fun q => (.TCompound q.1, q.2))
      | 11 =>
          (readBytesBE 4 0 data).bind (fun r =>
            (parseInts ((toInt32 r.1).toNat) r.2).map (fun q => (.TIntArray q.1, q.2)))
      | 12 =>
          (readBytesBE 4 0 data).bind (fun r =>
            (parseLongs ((toInt32 r.1).toNat) r.2).map (fun q => (.TLongArray q.1, q.2)))
      | _ => some (.TInvalid, data)

/-- The element loop of the `List` arm of `parse_tag`. -/
def parseListElems : Nat → Nat → Nat → List Nat → Option (List Tag × List Nat)
  | 0, _, _, _ => none
  | _ + 1, _, 0, data => some ([], data)
  | fuel + 1, ty, n + 1, data =>
      (parseTag fuel ty data).bind (fun r =>
        (parseListElems fuel ty n r.2).map (fun q => (r.1 :: q.1, q.2)))

/-- The entry loop of the `Compound` arm of `parse_tag`: read a type byte,
stop on the end tag, otherwise read the u16-length-prefixed name, the value,
and continue. -/
def parseCompoundEntries : Nat → List Nat → Option (List (List Nat × Tag) × List Nat)
  | 0, _ => none
  | fuel + 1, data =>
      match data with
      | [] => none
      | tyb :: after =>
          if tyb = 0 then some ([], after)
          else
            (readBytesBE 2 0 after).bind (fun r =>
              if r.1 ≤ r.2.length then
                (parseTag fuel tyb (r.2.drop r.1)).bind (fun q =>
                  (parseCompoundEntries fuel q.2).map (fun w =>
                    ((r.2.take r.1, q.1) :: w.1, w.2)))
              else none)

end

/-- `Tag::parse_nbt` (src/nbt.rs lines 144-150): root type byte, an ignored
u16-length-prefixed root name unless `no_root_name`, then the root tag. -/
def parse_nbt (fuel : Nat) (data : List Nat) (no_root_name : Bool) :
    Option (Tag × List Nat) :=
  match data with
  | [] => none
  | root :: rest =>
      if no_root_name then parseTag fuel root rest
      else
        (readBytesBE 2 0 rest).bind (fun r =>
          if r.1 ≤ r.2.length then parseTag fuel root (r.2.drop r.1) else none)

mutual

/-- Well-formedness of a tag as a value the Rust `Tag` can hold, plus the
conditions under which its serialization is honest: numeric payloads within
their byte widths, array/list lengths within `i32`, string/key lengths within
`u16`, byte and string payloads actual bytes, lists homogeneous in element
type, compound values never of type id 0 (`End`), and no `Invalid` anywhere. -/
def wfB : Tag → Bool
  | .TEnd => true
  | .TByte v => decide (v < 2 ^ 8)
  | .TShort v => decide (v < 2 ^ 16)
  | .TInt v => decide (v < 2 ^ 32)
  | .TLong v => decide (v < 2 ^ 64)
  | .TFloat v => decide (v < 2 ^ 32)
  | .TDouble v => decide (v < 2 ^ 64)
  | .TByteArray bs => decide (bs.length < 2 ^ 31) && bs.all (fun b => decide (b < 2 ^ 8))
  | .TString s => decide (s.length < 2 ^ 16) && s.all (fun b => decide (b < 2 ^ 8))
  | .TList ts =>
      decide (ts.length < 2 ^ 31)
        && ts.all (fun u => u.get_type_id == (ts.headD .TEnd).get_type_id)
        && wfListB ts
  | .TCompound es => wfCompB es
  | .TIntArray vs => decide (vs.length < 2 ^ 31) && vs.all (fun v => decide (v < 2 ^ 32))
  | .TLongArray vs => decide (vs.length < 2 ^ 31) && vs.all (fun v => decide (v < 2 ^ 64))
  | .TInvalid => false

/-- Well-formedness of a list's elements. -/
def wfListB : List Tag → Bool
  | [] => true
  | t :: ts => wfB t && wfListB ts

/-- Well-formedness of compound entries: byte keys below the u16 length
limit, values of nonzero type id, and well-formed values. -/
def wfCompB : List (List Nat × Tag) → Bool
  | [] => true
  | (k, v) :: es =>
      decide (k.length < 2 ^ 16) && k.all (fun b => decide (b < 2 ^ 8))
        && decide (v.get_type_id ≠ 0) && wfB v && wfCompB es

end

mutual

/-- A recursion-depth budget sufficient to parse the tag's serialization. -/
def needFuel : Tag → Nat
  | .TList ts => needFuelList ts + 1
  | .TCompound es => needFuelComp es + 1
  | _ => 1

/-- Budget for a list's elements. -/
def needFuelList : List Tag → Nat
  | [] => 1
  | t :: ts => max (needFuel t) (needFuelList ts) + 1

/-- Budget for a compound's entries. -/
def needFuelComp : List (List Nat × Tag) → Nat
  | [] => 1
  | (_, v) :: es => max (needFuel v) (needFuelComp es) + 1

end

theorem parseInts_concat (vs : List Nat) (hb : ∀ v ∈ vs, v < 2 ^ 32) (rest : List Nat) :
    parseInts vs.length (concatMap (natToBytesBE 4) vs ++ rest) = some (vs, rest) := by
  induction vs with
  | nil =>
      show parseInts 0 (concatMap (natToBytesBE 4) [] ++ rest) = some ([], rest)
      rfl
  | cons v vs ih =>
      show parseInts (vs.length + 1)
          ((natToBytesBE 4 v ++ concatMap (natToBytesBE 4) vs) ++ rest) = _
      rw [List.append_assoc]
      show (readBytesBE 4 0 (natToBytesBE 4 v ++ (concatMap (natToBytesBE 4) vs ++ rest))).bind
          (fun r => (parseInts vs.length r.2).map (fun q => (r.1 :: q.1, q.2)))
        = some (v :: vs, rest)
      rw [readBytesBE_append]
      rw [Option.some_bind]
      have hv : v < 2 ^ 32 := hb v (List.mem_cons_self v vs)
      rw [show (0 * 256 ^ 4 + v % 256 ^ 4, concatMap (natToBytesBE 4) vs ++ rest).2
        = concatMap (natToBytesBE 4) vs ++ rest from rfl]
      rw [ih (fun x hx => hb x (List.mem_cons_of_mem v hx))]
      rw [Option.map_some']
      have : 0 * 256 ^ 4 + v % 256 ^ 4 = v := by
        have h1 : (256 : Nat) ^ 4 = 2 ^ 32 := by norm_num
        rw [h1]
        omega
      rw [show ((0 * 256 ^ 4 + v % 256 ^ 4, concatMap (natToBytesBE 4) vs ++ rest).1 : Nat)
        = 0 * 256 ^ 4 + v % 256 ^ 4 from rfl, this]

theorem parseLongs_concat (vs : List Nat) (hb : ∀ v ∈ vs, v < 2 ^ 64) (rest : List Nat) :
    parseLongs vs.length (concatMap (natToBytesBE 8) vs ++ rest) = some (vs, rest) := by
  induction vs with
  | nil =>
      show parseLongs 0 (concatMap (natToBytesBE 8) [] ++ rest) = some ([], rest)
      rfl
  | cons v vs ih =>
      show parseLongs (vs.length + 1)
          ((natToBytesBE 8 v ++ concatMap (natToBytesBE 8) vs) ++ rest) = _
      rw [List.append_assoc]
      show (readBytesBE 8 0 (natToBytesBE 8 v ++ (concatMap (natToBytesBE 8) vs ++ rest))).bind
          (fun r => (parseLongs vs.length r.2).map (fun q => (r.1 :: q.1, q.2)))
        = some (v :: vs, rest)
      rw [readBytesBE_append]
      rw [Option.some_bind]
      rw [show (0 * 256 ^ 8 + v % 256 ^ 8, concatMap (natToBytesBE 8) vs ++ rest).2
        = concatMap (natToBytesBE 8) vs ++ rest from rfl]
      rw [ih (fun x hx => hb x (List.mem_cons_of_mem v hx))]
      rw [Option.map_some']
      have hv : v < 2 ^ 64 := hb v (List.mem_cons_self v vs)
      have : 0 * 256 ^ 8 + v % 256 ^ 8 = v := by
        have h1 : (256 : Nat) ^ 8 = 2 ^ 64 := by norm_num
        rw [h1]
        omega
      rw [show ((0 * 256 ^ 8 + v % 256 ^ 8, concatMap (natToBytesBE 8) vs ++ rest).1 : Nat)
        = 0 * 256 ^ 8 + v % 256 ^ 8 from rfl, this]

theorem one_le_needFuel (t : Tag) : 1 ≤ needFuel t := by
  cases t <;> (simp only [needFuel]; omega)

theorem one_le_needFuelList (ts : List Tag) : 1 ≤ needFuelList ts := by
  cases ts <;> (simp only [needFuelList]; omega)

theorem one_le_needFuelComp (es : List (List Nat × Tag)) : 1 ≤ needFuelComp es := by
  cases es with
  | nil => exact le_refl 1
  | cons kv es => obtain ⟨k, v⟩ := kv; simp only [needFuelComp]; omega

theorem i32AsUsize_small (p : Nat) (hp : p < 2 ^ 31) : i32AsUsize p = p := by
  unfold i32AsUsize toInt32
  rw [if_pos (by omega)]
  omega

theorem toInt32_toNat_small (p : Nat) (hp : p < 2 ^ 31) : (toInt32 p).toNat = p := by
  unfold toInt32
  rw [if_pos (by omega)]
  omega

mutual

theorem parseTag_serialize (t : Tag) (h : wfB t = true) (fuel : Nat)
    (hf : needFuel t ≤ fuel) (rest : List Nat) :
    parseTag fuel t.get_type_id (serializeInternal t ++ rest) = some (t, rest) := by
  obtain ⟨f, rfl⟩ : ∃ f, fuel = f + 1 := ⟨fuel - 1, by have := one_le_needFuel t; omega⟩
  cases t with
  | TEnd =>
      show parseTag (f + 1) 0 ([] ++ rest) = some (Tag.TEnd, rest)
      rfl
  | TByte v =>
      have hv : v < 2 ^ 8 := by simpa [wfB] using h
      show some (Tag.TByte (v / 256 ^ 0 % 256), rest) = some (Tag.TByte v, rest)
      norm_num
      omega
  | TShort v =>
      have hv : v < 2 ^ 16 := by simpa [wfB] using h
      show (readBytesBE 2 0 (natToBytesBE 2 v ++ rest)).map (fun r => (Tag.TShort r.1, r.2))
        = some (Tag.TShort v, rest)
      rw [readBytesBE_append, Option.map_some']
      show some (Tag.TShort (0 * 256 ^ 2 + v % 256 ^ 2), rest) = some (Tag.TShort v, rest)
      rw [show 0 * 256 ^ 2 + v % 256 ^ 2 = v from by
        have e : (256 : Nat) ^ 2 = 2 ^ 16 := by norm_num
        omega]
  | TInt v =>
      have hv : v < 2 ^ 32 := by simpa [wfB] using h
      show (readBytesBE 4 0 (natToBytesBE 4 v ++ rest)).map (fun r => (Tag.TInt r.1, r.2))
        = some (Tag.TInt v, rest)
      rw [readBytesBE_append, Option.map_some']
      show some (Tag.TInt (0 * 256 ^ 4 + v % 256 ^ 4), rest) = some (Tag.TInt v, rest)
      rw [show 0 * 256 ^ 4 + v % 256 ^ 4 = v from by
        have e : (256 : Nat) ^ 4 = 2 ^ 32 := by norm_num
        omega]
  | TLong v =>
      have hv : v < 2 ^ 64 := by simpa [wfB] using h
      show (readBytesBE 8 0 (natToBytesBE 8 v ++ rest)).map (fun r => (Tag.TLong r.1, r.2))
        = some (Tag.TLong v, rest)
      rw [readBytesBE_append, Option.map_some']
      show some (Tag.TLong (0 * 256 ^ 8 + v % 256 ^ 8), rest) = some (Tag.TLong v, rest)
      rw [show 0 * 256 ^ 8 + v % 256 ^ 8 = v from by
        have e : (256 : Nat) ^ 8 = 2 ^ 64 := by norm_num
        omega]
  | TFloat v =>
      have hv : v < 2 ^ 32 := by simpa [wfB] using h
      show (readBytesBE 4 0 (natToBytesBE 4 v ++ rest)).map (fun r => (Tag.TFloat r.1, r.2))
        = some (Tag.TFloat v, rest)
      rw [readBytesBE_append, Option.map_some']
      show some (Tag.TFloat (0 * 256 ^ 4 + v % 256 ^ 4), rest) = some (Tag.TFloat v, rest)
      rw [show 0 * 256 ^ 4 + v % 256 ^ 4 = v from by
        have e : (256 : Nat) ^ 4 = 2 ^ 32 := by norm_num
        omega]
  | TDouble v =>
      have hv : v < 2 ^ 64 := by simpa [wfB] using h
      show (readBytesBE 8 0 (natToBytesBE 8 v ++ rest)).map (fun r => (Tag.TDouble r.1, r.2))
        = some (Tag.TDouble v, rest)
      rw [readBytesBE_append, Option.map_some']
      show some (Tag.TDouble (0 * 256 ^ 8 + v % 256 ^ 8), rest) = some (Tag.TDouble v, rest)
      rw [show 0 * 256 ^ 8 + v % 256 ^ 8 = v from by
        have e : (256 : Nat) ^ 8 = 2 ^ 64 := by norm_num
        omega]
  | TByteArray bs =>
      simp only [wfB, Bool.and_eq_true, decide_eq_true_eq, List.all_eq_true] at h
      obtain ⟨hl, _⟩ := h
      rw [show serializeInternal (Tag.TByteArray bs) = natToBytesBE 4 bs.length ++ bs from rfl,
        List.append_assoc]
      show (readBytesBE 4 0 (natToBytesBE 4 bs.length ++ (bs ++ rest))).bind (fun r =>
          if i32AsUsize r.1 ≤ r.2.length then
            some (Tag.TByteArray (r.2.take (i32AsUsize r.1)), r.2.drop (i32AsUsize r.1))
          else none)
        = some (Tag.TByteArray bs, rest)
      rw [readBytesBE_append, Option.some_bind]
      show (if i32AsUsize (0 * 256 ^ 4 + bs.length % 256 ^ 4) ≤ (bs ++ rest).length then
          some (Tag.TByteArray ((bs ++ rest).take
              (i32AsUsize (0 * 256 ^ 4 + bs.length % 256 ^ 4))),
            (bs ++ rest).drop (i32AsUsize (0 * 256 ^ 4 + bs.length % 256 ^ 4)))
        else none) = some (Tag.TByteArray bs, rest)
      rw [show 0 * 256 ^ 4 + bs.length % 256 ^ 4 = bs.length from by
        have e : (256 : Nat) ^ 4 = 2 ^ 32 := by norm_num
        omega]
      rw [i32AsUsize_small bs.length hl]
      rw [if_pos (by rw [List.length_append]; omega)]
      rw [List.take_left' rfl, List.drop_left' rfl]
  | TString s =>
      simp only [wfB, Bool.and_eq_true, decide_eq_true_eq, List.all_eq_true] at h
      obtain ⟨hl, _⟩ := h
      rw [show serializeInternal (Tag.TString s) = natToBytesBE 2 s.length ++ s from rfl,
        List.append_assoc]
      show (readBytesBE 2 0 (natToBytesBE 2 s.length ++ (s ++ rest))).bind (fun r =>
          if r.1 ≤ r.2.length then some (Tag.TString (r.2.take r.1), r.2.drop r.1) else none)
        = some (Tag.TString s, rest)
      rw [readBytesBE_append, Option.some_bind]
      show (if 0 * 256 ^ 2 + s.length % 256 ^ 2 ≤ (s ++ rest).length then
          some (Tag.TString ((s ++ rest).take (0 * 256 ^ 2 + s.length % 256 ^ 2)),
            (s ++ rest).drop (0 * 256 ^ 2 + s.length % 256 ^ 2))
        else none) = some (Tag.TString s, rest)
      rw [show 0 * 256 ^ 2 + s.length % 256 ^ 2 = s.length from by
        have e : (256 : Nat) ^ 2 = 2 ^ 16 := by norm_num
        omega]
      rw [if_pos (by rw [List.length_append]; omega)]
      rw [List.take_left' rfl, List.drop_left' rfl]
  | TList ts =>
      simp only [wfB, Bool.and_eq_true, decide_eq_true_eq, List.all_eq_true,
        beq_iff_eq] at h
      obtain ⟨⟨hl, hom⟩, hwfl⟩ := h
      have hfl : needFuelList ts ≤ f := by
        simp only [needFuel] at hf
        omega
      rw [show serializeInternal (Tag.TList ts)
          = (ts.headD .TEnd).get_type_id :: (natToBytesBE 4 ts.length ++ serializeList ts)
          from rfl, List.cons_append, List.append_assoc]
      show (readBytesBE 4 0 (natToBytesBE 4 ts.length ++ (serializeList ts ++ rest))).bind
          (fun r => (parseListElems f (ts.headD .TEnd).get_type_id ((toInt32 r.1).toNat)
              r.2).map (fun q => (Tag.TList q.1, q.2)))
        = some (Tag.TList ts, rest)
      rw [readBytesBE_append, Option.some_bind]
      show (parseListElems f (ts.headD .TEnd).get_type_id
          ((toInt32 (0 * 256 ^ 4 + ts.length % 256 ^ 4)).toNat) (serializeList ts ++ rest)).map
          (fun q => (Tag.TList q.1, q.2)) = some (Tag.TList ts, rest)
      rw [show 0 * 256 ^ 4 + ts.length % 256 ^ 4 = ts.length from by
        have e : (256 : Nat) ^ 4 = 2 ^ 32 := by norm_num
        omega]
      rw [toInt32_toNat_small ts.length hl]
      rw [parseList_serialize ts (ts.headD .TEnd).get_type_id hwfl hom f hfl rest,
        Option.map_some']
  | TCompound es =>
      have hwc : wfCompB es = true := by simpa [wfB] using h
      have hfc : needFuelComp es ≤ f := by
        simp only [needFuel] at hf
        omega
      show (parseCompoundEntries f ((serializeCompound es ++ [0]) ++ rest)).map
          (fun q => (Tag.TCompound q.1, q.2)) = some (Tag.TCompound es, rest)
      rw [parseComp_serialize es hwc f hfc rest, Option.map_some']
  | TIntArray vs =>
      simp only [wfB, Bool.and_eq_true, decide_eq_true_eq, List.all_eq_true] at h
      obtain ⟨hl, hb⟩ := h
      rw [show serializeInternal (Tag.TIntArray vs)
          = natToBytesBE 4 vs.length ++ concatMap (natToBytesBE 4) vs from rfl,
        List.append_assoc]
      show (readBytesBE 4 0 (natToBytesBE 4 vs.length
            ++ (concatMap (natToBytesBE 4) vs ++ rest))).bind
          (fun r => (parseInts ((toInt32 r.1).toNat) r.2).map
            (fun q => (Tag.TIntArray q.1, q.2)))
        = some (Tag.TIntArray vs, rest)
      rw [readBytesBE_append, Option.some_bind]
      show (parseInts ((toInt32 (0 * 256 ^ 4 + vs.length % 256 ^ 4)).toNat)
          (concatMap (natToBytesBE 4) vs ++ rest)).map (fun q => (Tag.TIntArray q.1, q.2))
        = some (Tag.TIntArray vs, rest)
      rw [show 0 * 256 ^ 4 + vs.length % 256 ^ 4 = vs.length from by
        have e : (256 : Nat) ^ 4 = 2 ^ 32 := by norm_num
        omega]
      rw [toInt32_toNat_small vs.length hl]
      rw [parseInts_concat vs hb rest, Option.map_some']
  | TLongArray vs =>
      simp only [wfB, Bool.and_eq_true, decide_eq_true_eq, List.all_eq_true] at h
      obtain ⟨hl, hb⟩ := h
      rw [show serializeInternal (Tag.TLongArray vs)
          = natToBytesBE 4 vs.length ++ concatMap (natToBytesBE 8) vs from rfl,
        List.append_assoc]
      show (readBytesBE 4 0 (natToBytesBE 4 vs.length
            ++ (concatMap (natToBytesBE 8) vs ++ rest))).bind
          (fun r => (parseLongs ((toInt32 r.1).toNat) r.2).map
            (fun q => (Tag.TLongArray q.1, q.2)))
        = some (Tag.TLongArray vs, rest)
      rw [readBytesBE_append, Option.some_bind]
      show (parseLongs ((toInt32 (0 * 256 ^ 4 + vs.length % 256 ^ 4)).toNat)
          (concatMap (natToBytesBE 8) vs ++ rest)).map (fun q => (Tag.TLongArray q.1, q.2))
        = some (Tag.TLongArray vs, rest)
      rw [show 0 * 256 ^ 4 + vs.length % 256 ^ 4 = vs.length from by
        have e : (256 : Nat) ^ 4 = 2 ^ 32 := by norm_num
        omega]
      rw [toInt32_toNat_small vs.length hl]
      rw [parseLongs_concat vs hb rest, Option.map_some']
  | TInvalid => exact absurd h (by simp [wfB])
termination_by sizeOf t

theorem parseList_serialize : ∀ (ts : List Tag) (ty : Nat), wfListB ts = true →
    (∀ u ∈ ts, u.get_type_id = ty) → ∀ (fuel : Nat), needFuelList ts ≤ fuel →
    ∀ (rest : List Nat),
    parseListElems fuel ty ts.length (serializeList ts ++ rest) = some (ts, rest)
  | [], ty, h, hty, fuel, hf, rest => by
      obtain ⟨f, rfl⟩ : ∃ f, fuel = f + 1 :=
        ⟨fuel - 1, by have := one_le_needFuelList ([] : List Tag); omega⟩
      show parseListElems (f + 1) ty 0 ([] ++ rest) = some ([], rest)
      rfl
  | t :: ts, ty, h, hty, fuel, hf, rest => by
      obtain ⟨f, rfl⟩ : ∃ f, fuel = f + 1 :=
        ⟨fuel - 1, by have := one_le_needFuelList (t :: ts); omega⟩
      have hwf : wfB t = true ∧ wfListB ts = true := by
        simpa [wfListB, Bool.and_eq_true] using h
      have hneed : max (needFuel t) (needFuelList ts) + 1 ≤ f + 1 := by
        simpa [needFuelList] using hf
      have hty0 : t.get_type_id = ty := hty t (List.mem_cons_self t ts)
      have hty' : ∀ u ∈ ts, u.get_type_id = ty :=
        fun u hu => hty u (List.mem_cons_of_mem t hu)
      rw [show serializeList (t :: ts) = serializeInternal t ++ serializeList ts from rfl,
        List.append_assoc]
      show (parseTag f ty (serializeInternal t ++ (serializeList ts ++ rest))).bind (fun r =>
          (parseListElems f ty ts.length r.2).map (fun q => (r.1 :: q.1, q.2)))
        = some (t :: ts, rest)
      rw [← hty0]
      rw [parseTag_serialize t hwf.1 f (by omega) (serializeList ts ++ rest)]
      rw [Option.some_bind]
      show (parseListElems f t.get_type_id ts.length (serializeList ts ++ rest)).map
          (fun q => (t :: q.1, q.2)) = some (t :: ts, rest)
      rw [parseList_serialize ts t.get_type_id hwf.2
        (fun u hu => (hty' u hu).trans hty0.symm) f (by omega) rest]
      rw [Option.map_some']
termination_by ts ty h hty fuel hf rest => sizeOf ts

theorem parseComp_serialize : ∀ (es : List (List Nat × Tag)), wfCompB es = true →
    ∀ (fuel : Nat), needFuelComp es ≤ fuel → ∀ (rest : List Nat),
    parseCompoundEntries fuel ((serializeCompound es ++ [0]) ++ rest) = some (es, rest)
  | [], h, fuel, hf, rest => by
      obtain ⟨f, rfl⟩ : ∃ f, fuel = f + 1 :=
        ⟨fuel - 1, by have := one_le_needFuelComp ([] : List (List Nat × Tag)); omega⟩
      show parseCompoundEntries (f + 1) (([] ++ [0]) ++ rest) = some ([], rest)
      rfl
  | (k, v) :: es, h, fuel, hf, rest => by
      obtain ⟨f, rfl⟩ : ∃ f, fuel = f + 1 :=
        ⟨fuel - 1, by have := one_le_needFuelComp ((k, v) :: es); omega⟩
      simp only [wfCompB, Bool.and_eq_true, decide_eq_true_eq, List.all_eq_true] at h
      obtain ⟨⟨⟨⟨hk, hkb⟩, hvty⟩, hwv⟩, hwes⟩ := h
      have hneed : max (needFuel v) (needFuelComp es) + 1 ≤ f + 1 := by
        simpa [needFuelComp] using hf
      rw [show serializeCompound ((k, v) :: es)
          = v.get_type_id :: (natToBytesBE 2 k.length ++ k ++ serializeInternal v
            ++ serializeCompound es) from rfl]
      rw [List.cons_append, List.cons_append]
      show (if v.get_type_id = 0 then
          some ([], (natToBytesBE 2 k.length ++ k ++ serializeInternal v
            ++ serializeCompound es ++ [0]) ++ rest)
        else (readBytesBE 2 0 ((natToBytesBE 2 k.length ++ k ++ serializeInternal v
            ++ serializeCompound es ++ [0]) ++ rest)).bind (fun r =>
          if r.1 ≤ r.2.length then
            (parseTag f v.get_type_id (r.2.drop r.1)).bind (fun q =>
              (parseCompoundEntries f q.2).map (fun w =>
                ((r.2.take r.1, q.1) :: w.1, w.2)))
          else none))
        = some ((k, v) :: es, rest)
      rw [if_neg hvty]
      simp only [List.append_assoc]
      rw [readBytesBE_append, Option.some_bind]
      show (if 0 * 256 ^ 2 + k.length % 256 ^ 2
            ≤ (k ++ (serializeInternal v ++ (serializeCompound es ++ ([0] ++ rest)))).length then
          (parseTag f v.get_type_id ((k ++ (serializeInternal v ++ (serializeCompound es
              ++ ([0] ++ rest)))).drop (0 * 256 ^ 2 + k.length % 256 ^ 2))).bind (fun q =>
            (parseCompoundEntries f q.2).map (fun w =>
              (((k ++ (serializeInternal v ++ (serializeCompound es ++ ([0] ++ rest)))).take
                  (0 * 256 ^ 2 + k.length % 256 ^ 2), q.1) :: w.1, w.2)))
        else none)
        = some ((k, v) :: es, rest)
      rw [show 0 * 256 ^ 2 + k.length % 256 ^ 2 = k.length from by
        have e : (256 : Nat) ^ 2 = 2 ^ 16 := by norm_num
        omega]
      rw [if_pos (by rw [List.length_append]; omega)]
      rw [List.take_left' rfl, List.drop_left' rfl]
      rw [parseTag_serialize v hwv f (by omega) (serializeCompound es ++ ([0] ++ rest))]
      rw [Option.some_bind]
      show (parseCompoundEntries f (serializeCompound es ++ ([0] ++ rest))).map (fun w =>
          ((k, v) :: w.1, w.2)) = some ((k, v) :: es, rest)
      rw [← List.append_assoc]
      rw [parseComp_serialize es hwes f (by omega) rest, Option.map_some']
termination_by es h fuel hf rest => sizeOf es

end

/-- C4 counterexample: a `Compound` whose value is `End` serializes with the
value's type id 0, which the parser's entry loop reads as the end-of-compound
marker, so the compound parses back empty (with the name, the `End` body and
the real end tag left over as trailing garbage) — the round trip fails in the
nameless network form (and equally in the legacy form). -/
theorem claim_C4_counterexample :
    parse_nbt 2 (Tag.serialize (Tag.TCompound [([97], Tag.TEnd)]) true) true
      = some (Tag.TCompound [], [0, 1, 97, 0])
    ∧ Tag.TCompound ([] : List (List Nat × Tag)) ≠ Tag.TCompound [([97], Tag.TEnd)] := by
  constructor
  · rfl
  · intro he
    injection he with h1
    exact absurd h1 (by simp)

/-- C4 (amended): parsing the serialization of `t` recovers `t` exactly — for
both the legacy name-prefixed root form and the nameless network form, and
with any trailing bytes preserved — provided `t` is well formed: numeric
payloads in range, array/list lengths below `2^31`, string and key lengths
below `2^16`, lists homogeneous, no `Invalid` anywhere, and no compound entry
whose value has type id 0 (i.e. no `End` value, the case the counterexample
shows breaks the round trip).  `fuel` bounds the recursion depth of the Rust
parser and is irrelevant beyond `needFuel t`. -/
theorem claim_C4_nbt_roundtrip (t : Tag) (h : wfB t = true) (x : Bool) (fuel : Nat)
    (hf : needFuel t ≤ fuel) (rest : List Nat) :
    parse_nbt fuel (Tag.serialize t x ++ rest) x = some (t, rest) := by
  cases x with
  | true =>
      show parseTag fuel t.get_type_id (serializeInternal t ++ rest) = some (t, rest)
      exact parseTag_serialize t h fuel hf rest
  | false =>
      show (if (0 : Nat) ≤ (serializeInternal t ++ rest).length then
          parseTag fuel t.get_type_id ((serializeInternal t ++ rest).drop 0) else none)
        = some (t, rest)
      rw [if_pos (Nat.zero_le _)]
      show parseTag fuel t.get_type_id (serializeInternal t ++ rest) = some (t, rest)
      exact parseTag_serialize t h fuel hf rest

/-- C4 witness: a compound with one byte entry round trips in the legacy
root form, keeping the trailing byte. -/
theorem claim_C4_nbt_roundtrip_witness :
    wfB (Tag.TCompound [([97], Tag.TByte 5)]) = true
    ∧ parse_nbt 3 (Tag.serialize (Tag.TCompound [([97], Tag.TByte 5)]) false ++ [7]) false
        = some (Tag.TCompound [([97], Tag.TByte 5)], [7]) :=
  ⟨rfl, claim_C4_nbt_roundtrip (Tag.TCompound [([97], Tag.TByte 5)]) rfl false 3
    (by decide) [7]⟩

/-- C9 counterexample: the network-form input `[9, 3, ff, ff, ff, ff]` — a
`List` of element type `Int` with size `-1` — parses successfully to an empty
list instead of being treated as an error. -/
theorem claim_C9_counterexample :
    parse_nbt 2 [9, 3, 255, 255, 255, 255] true = some (Tag.TList [], []) := rfl

/-- C9 (amended): when the i32 size field decodes to a negative value (32-bit
pattern `p ≥ 2^31`), only `ByteArray` fails — its size is cast through
`usize`, becoming astronomically large, so the slice panics.  The
`List`, `IntArray` and `LongArray` loops run `0..size` times, which is empty
for negative `size`, so they all parse successfully to empty values — the
negative size is not reported as an error. -/
theorem claim_C9_negative_sizes (p : Nat) (hneg : 2 ^ 31 ≤ p) (hp : p < 2 ^ 32)
    (fuel : Nat) (hfuel : 2 ≤ fuel) (rest : List Nat) (hr : rest.length < 2 ^ 63) :
    parseTag fuel 7 (natToBytesBE 4 p ++ rest) = none
    ∧ (∀ et, parseTag fuel 9 (et :: (natToBytesBE 4 p ++ rest))
        = some (Tag.TList [], rest))
    ∧ parseTag fuel 11 (natToBytesBE 4 p ++ rest) = some (Tag.TIntArray [], rest)
    ∧ parseTag fuel 12 (natToBytesBE 4 p ++ rest) = some (Tag.TLongArray [], rest) := by
  obtain ⟨g, rfl⟩ : ∃ g, fuel = g + 1 + 1 := ⟨fuel - 2, by omega⟩
  have hrd : readBytesBE 4 0 (natToBytesBE 4 p ++ rest) = some (p, rest) := by
    rw [readBytesBE_append]
    rw [show 0 * 256 ^ 4 + p % 256 ^ 4 = p from by
      have e : (256 : Nat) ^ 4 = 2 ^ 32 := by norm_num
      omega]
  have htoi : toInt32 p = (p : Int) - 2 ^ 32 := by
    unfold toInt32
    rw [if_neg (by omega)]
  have husize : i32AsUsize p = 2 ^ 64 - 2 ^ 32 + p := by
    unfold i32AsUsize
    rw [htoi]
    omega
  have htonat : (toInt32 p).toNat = 0 := by
    rw [htoi]
    omega
  refine ⟨?_, ?_, ?_, ?_⟩
  · show (readBytesBE 4 0 (natToBytesBE 4 p ++ rest)).bind (fun r =>
        if i32AsUsize r.1 ≤ r.2.length then
          some (Tag.TByteArray (r.2.take (i32AsUsize r.1)), r.2.drop (i32AsUsize r.1))
        else none) = none
    rw [hrd, Option.some_bind]
    show (if i32AsUsize p ≤ rest.length then
        some (Tag.TByteArray (rest.take (i32AsUsize p)), rest.drop (i32AsUsize p))
      else none) = none
    rw [if_neg (by rw [husize]; omega)]
  · intro et
    show (readBytesBE 4 0 (natToBytesBE 4 p ++ rest)).bind (fun r =>
        (parseListElems (g + 1) et ((toInt32 r.1).toNat) r.2).map
          (fun q => (Tag.TList q.1, q.2)))
      = some (Tag.TList [], rest)
    rw [hrd, Option.some_bind]
    show (parseListElems (g + 1) et ((toInt32 p).toNat) rest).map
        (fun q => (Tag.TList q.1, q.2)) = some (Tag.TList [], rest)
    rw [htonat]
    rw [show parseListElems (g + 1) et 0 rest = some ([], rest) from rfl, Option.map_some']
  · show (readBytesBE 4 0 (natToBytesBE 4 p ++ rest)).bind (fun r =>
        (parseInts ((toInt32 r.1).toNat) r.2).map (fun q => (Tag.TIntArray q.1, q.2)))
      = some (Tag.TIntArray [], rest)
    rw [hrd, Option.some_bind]
    show (parseInts ((toInt32 p).toNat) rest).map (fun q => (Tag.TIntArray q.1, q.2))
      = some (Tag.TIntArray [], rest)
    rw [htonat]
    rw [show parseInts 0 rest = some ([], rest) from rfl, Option.map_some']
  · show (readBytesBE 4 0 (natToBytesBE 4 p ++ rest)).bind (fun r =>
        (parseLongs ((toInt32 r.1).toNat) r.2).map (fun q => (Tag.TLongArray q.1, q.2)))
      = some (Tag.TLongArray [], rest)
    rw [hrd, Option.some_bind]
    show (parseLongs ((toInt32 p).toNat) rest).map (fun q => (Tag.TLongArray q.1, q.2))
      = some (Tag.TLongArray [], rest)
    rw [htonat]
    rw [show parseLongs 0 rest = some ([], rest) from rfl, Option.map_some']

/-- C9 witness: size pattern `2^31` (the i32 value `-2^31`) on an empty
remainder: `ByteArray` fails, `IntArray` parses as empty. -/
theorem claim_C9_negative_sizes_witness :
    parseTag 2 7 (natToBytesBE 4 (2 ^ 31) ++ []) = none
    ∧ parseTag 2 11 (natToBytesBE 4 (2 ^ 31) ++ []) = some (Tag.TIntArray [], []) :=
  ⟨(claim_C9_negative_sizes (2 ^ 31) (by norm_num) (by norm_num) 2 (by norm_num) []
      (by simp)).1,
   (claim_C9_negative_sizes (2 ^ 31) (by norm_num) (by norm_num) 2 (by norm_num) []
      (by simp)).2.2.1⟩
